import Mathlib

/-!
# Kova protocol core — verification development

Shallow embedding of the core of the Kova proof-of-stake node:

* the execution runtime (`blockchain/protocol/runtime/src/lib.rs`):
  transaction application, gas-fee routing, unbonding processing and
  inflation rewards;
* the consensus engine (`blockchain/protocol/consensus/src/lib.rs`):
  stake-weighted vote tallies and the quorum commit rule;
* the data-availability layer (`blockchain/protocol/da/src/lib.rs`):
  shard Merkle commitments, sampling proofs and their verification;
* the state store (`blockchain/protocol/state/src/lib.rs`): the
  leaf-fold state root.

Modelling conventions:

* Rust `u128`/`u64` values are `Nat`s; checked arithmetic is modelled by
  `Option`-returning operations that fail above `U128_MAX`, and the
  saturating operations clamp at `U128_MAX` / `U64_MAX` exactly as the
  source does.
* 32-byte values (`Address`, `Hash`) and UUIDs are opaque to every
  operation embedded here, so they are modelled as `Nat`.
* BLAKE3 and ed25519 are external cryptographic primitives; they enter
  the embedding as explicit function parameters (collision-freeness,
  where a claim needs it, is an explicit injectivity hypothesis).
  `Uuid::new_v4()` is a source of randomness and is modelled as an
  explicitly supplied fresh identifier.
* The Rust store (`InMemoryStateStore`) holds a single `ChainState`
  behind a mutex; `put_account` mutates only its `accounts` map while
  `apply_tx` also keeps a local `chain` snapshot that is written back at
  the end via `sync_accounts_from_store` + `put_chain_state`.  The
  embedding threads the store state explicitly and reproduces this
  read/write sequencing, including the states left behind by early
  error returns.
* `HashMap` collections are modelled as association lists with
  first-match lookup and replace-or-append insertion.  The properties
  proved below do not depend on which entry a `values_mut().find`
  iteration visits first.
* The embedding covers the value-moving payload kinds the claims are
  about (Transfer, Stake, Unstake, Delegate, Undelegate, Slash,
  PrivacyDeposit, PrivacyWithdraw, RollupBridgeDeposit,
  RollupBridgeWithdraw).  The domain/governance payloads depend on wall
  clock time, random UUIDs or external VMs and are outside the claims.
-/

namespace Kova

/-- Maximum value of a Rust `u128`. -/
def U128_MAX : Nat := 2 ^ 128 - 1

/-- Maximum value of a Rust `u64`. -/
def U64_MAX : Nat := 2 ^ 64 - 1

/-- `u128::checked_add`. -/
def checked_add (a b : Nat) : Option Nat :=
  if a + b ≤ U128_MAX then some (a + b) else none

/-- `u128::checked_sub`. -/
def checked_sub (a b : Nat) : Option Nat :=
  if b ≤ a then some (a - b) else none

/-- `u128::checked_mul`. -/
def checked_mul (a b : Nat) : Option Nat :=
  if a * b ≤ U128_MAX then some (a * b) else none

/-- `u128::saturating_add`. -/
def sat_add (a b : Nat) : Nat := min (a + b) U128_MAX

/-- `u128::saturating_sub` (truncated subtraction on `Nat`). -/
def sat_sub (a b : Nat) : Nat := a - b

/-- `u128::saturating_mul`. -/
def sat_mul (a b : Nat) : Nat := min (a * b) U128_MAX

/-- `u64::saturating_add`. -/
def sat_add64 (a b : Nat) : Nat := min (a + b) U64_MAX

/-- Wrapping `u64` increment (`nonce += 1`). -/
def wrap64 (n : Nat) : Nat := n % 2 ^ 64

/-- 32-byte address (`BLAKE3(pubkey)`), opaque to the runtime. -/
abbrev Address := Nat

/-- 32-byte hash value, opaque to the runtime. -/
abbrev Hash := Nat

/-- UUID, opaque to the runtime. -/
abbrev UUID := Nat

/-- `state::Account`. -/
structure Account where
  address : Address
  nonce : Nat
  balance_x : Nat
  code_hash : Option Hash
  storage_root : Option Hash
deriving DecidableEq, Repr

/-- `state::ValidatorStatus`. -/
inductive ValidatorStatus where
  | Active
  | Jailed
  | Exited
deriving DecidableEq, Repr

/-- `state::Validator`. -/
structure Validator where
  owner : Address
  id : UUID
  pubkey : List Nat
  stake : Nat
  status : ValidatorStatus
  commission_rate : Nat
deriving DecidableEq, Repr

/-- `state::Delegation`. -/
structure Delegation where
  delegator : Address
  validator_id : UUID
  stake : Nat
deriving DecidableEq, Repr

/-- `state::Unbonding`. -/
structure Unbonding where
  owner : Address
  validator_id : Option UUID
  amount : Nat
  release_height : Nat
deriving DecidableEq, Repr

/-- `state::FeePools`. -/
structure FeePools where
  l1_gas : Nat
  da : Nat
  sequencer : Nat
  treasury : Nat
deriving DecidableEq, Repr

/-- `state::PrivacyPool` (the opaque JSON `parameters` field is omitted:
no embedded operation reads or writes it). -/
structure PrivacyPool where
  merkle_root : Hash
  nullifiers : List Hash
  commitments : List Hash
  total_shielded : Nat
deriving DecidableEq, Repr

/-- `PrivacyPool::default()`. -/
def PrivacyPool.default : PrivacyPool :=
  { merkle_root := 0, nullifiers := [], commitments := [], total_shielded := 0 }

/-- `state::ChainState`, restricted to the collections the embedded
operations touch.  `domains`, `da_commitments`, `domain_roots`,
`proposals` and `governance_params` are read and written only by the
domain/governance payload kinds, which are outside the embedded
fragment; none of them enters the supply-conservation sum. -/
structure ChainState where
  accounts : List Account
  validators : List Validator
  delegations : List Delegation
  fee_pools : FeePools
  privacy_pools : List (String × PrivacyPool)
  total_supply : Nat
  last_reward_height : Nat
  pending_unbonds : List Unbonding
deriving DecidableEq, Repr

/-- `HashMap` lookup over the association-list model (first match). -/
def getAccount (l : List Account) (addr : Address) : Option Account :=
  l.find? (fun a => a.address == addr)

/-- `HashMap::insert` over the association-list model: replace the first
entry with the same address, else append. -/
def putAccount (l : List Account) (acc : Account) : List Account :=
  match l with
  | [] => [acc]
  | a :: rest =>
      if a.address == acc.address then acc :: rest else a :: putAccount rest acc

/-- `chain.validators.values_mut().find(|v| v.owner == owner)`. -/
def findValidatorByOwner (l : List Validator) (owner : Address) : Option Validator :=
  l.find? (fun v => v.owner == owner)

/-- Replace the first validator whose owner matches (models the in-place
mutation through the `values_mut().find` reference). -/
def replaceValidatorByOwner (l : List Validator) (owner : Address)
    (v' : Validator) : List Validator :=
  match l with
  | [] => []
  | v :: rest =>
      if v.owner == owner then v' :: rest
      else v :: replaceValidatorByOwner rest owner v'

/-- `runtime::default_account`. -/
def default_account (address : Address) : Account :=
  { address := address, nonce := 0, balance_x := 0,
    code_hash := none, storage_root := none }

/-- `runtime::FeeSplit`. -/
structure FeeSplit where
  l1_gas_burn_pct : Nat
  l1_gas_validators_pct : Nat
  da_validators_pct : Nat
  da_nodes_pct : Nat
  da_treasury_pct : Nat
  l2_sequencer_pct : Nat
  l2_da_costs_pct : Nat
  l2_l1_rent_pct : Nat
deriving DecidableEq, Repr

/-- `runtime::RewardParams`. -/
structure RewardParams where
  base_inflation_bps : Nat
  max_inflation_bps : Nat
  target_stake_bps : Nat
  treasury_pct : Nat
  proposer_bonus_pct : Nat
deriving DecidableEq, Repr

/-- `zk_program_privacy::PrivacyWithdrawInput`. -/
structure PrivacyWithdrawInput where
  nullifier : Hash
  merkle_root : Hash
  recipient : Address
  amount : Nat
  commitment : Hash
deriving DecidableEq, Repr

/-- `zk_core::ProofArtifact`, opaque to the runtime (its contents are
consumed only by `verify_privacy_withdraw`, abstracted in `Ctx`). -/
abbrev ProofArtifact := Nat

/-- The embedded payload kinds of `runtime::TxPayload`. -/
inductive TxPayload where
  | Transfer (toAddr : Address) (amount : Nat)
  | Stake (amount : Nat)
  | Unstake (amount : Nat)
  | Delegate (validator : Address) (amount : Nat)
  | Undelegate (validator : Address) (amount : Nat)
  | Slash (validator : Address) (penalty_bps : Nat)
  | PrivacyDeposit (commitment : Hash) (amount : Nat)
  | PrivacyWithdraw (nullifier : Hash) (recipient : Address) (amount : Nat)
      (merkle_root : Hash) (commitment : Hash) (proof : ProofArtifact)
  | RollupBridgeDeposit (domain_id : UUID) (amount : Nat)
  | RollupBridgeWithdraw (domain_id : UUID) (amount : Nat)
deriving DecidableEq, Repr

/-- `runtime::Tx`.  The signature field is kept because the Stake branch
of `apply_tx` stores it as the new validator's `pubkey`. -/
structure Tx where
  chain_id : String
  nonce : Nat
  gas_limit : Nat
  max_fee : Option Nat
  max_priority_fee : Option Nat
  gas_price : Option Nat
  payload : TxPayload
  public_key : List Nat
  signature : List Nat
deriving DecidableEq, Repr

/-- `runtime::ExecutionContext`, with the external primitives the
runtime calls modelled as function fields: `fresh_validator_id` stands
for `Uuid::new_v4()`, `zk_ok` for `verify_privacy_withdraw`'s verdict,
`hash_commitment` for `blake3::hash` on a commitment and `hash_stream`
for streaming sorted leaves into one BLAKE3 hasher, `commit_root` for
`store.commit()`. -/
structure Ctx where
  fee_split : FeeSplit
  chain_id : String
  base_fee : Nat
  max_gas_per_block : Nat
  block_time_ms : Nat
  reward_params : RewardParams
  unbonding_delay_blocks : Nat
  slash_penalty_bps : Nat
  fresh_validator_id : UUID
  zk_ok : PrivacyWithdrawInput → ProofArtifact → Bool
  hash_commitment : Hash → Hash
  hash_stream : List Hash → Hash
  commit_root : ChainState → Hash

/-- `runtime::ExecutionOutcome`. -/
structure ExecutionOutcome where
  gas_used : Nat
  events : List String
deriving DecidableEq, Repr

/-- `runtime::gas_cost`.  The bridge payloads fall into the `_ => 50_000`
catch-all of the source match. -/
def gas_cost (payload : TxPayload) : Nat :=
  match payload with
  | .Transfer _ _ => 21000
  | .Stake _ => 50000
  | .Unstake _ => 50000
  | .Delegate _ _ => 60000
  | .Undelegate _ _ => 60000
  | .Slash _ _ => 70000
  | .PrivacyDeposit _ _ => 80000
  | .PrivacyWithdraw _ _ _ _ _ _ => 120000
  | .RollupBridgeDeposit _ _ => 50000
  | .RollupBridgeWithdraw _ _ => 50000

/-- `runtime::effective_gas_price`. -/
def effective_gas_price (tx : Tx) (base_fee : Nat) : Except String Nat :=
  match tx.max_fee with
  | some max_fee =>
      let priority := tx.max_priority_fee.getD 0
      match checked_add base_fee priority with
      | none => .error "fee overflow"
      | some total => .ok (if max_fee < total then max_fee else total)
  | none =>
      match tx.gas_price with
      | some gas_price => .ok gas_price
      | none => .ok base_fee

/-- `runtime::ensure_funds`. -/
def ensure_funds (account : Account) (amount gas_fee : Nat) : Except String Unit :=
  match checked_add amount gas_fee with
  | none => .error "overflow"
  | some total =>
      if account.balance_x < total then .error "insufficient funds" else .ok ()

/-- `runtime::ensure_positive`. -/
def ensure_positive (amount : Nat) : Except String Unit :=
  if amount == 0 then .error "amount must be > 0" else .ok ()

/-- `runtime::route_gas_fee`. -/
def route_gas_fee (chain : ChainState) (gas_fee : Nat) (split : FeeSplit) : ChainState :=
  let burn := sat_mul gas_fee split.l1_gas_burn_pct / 100
  let validators := sat_mul gas_fee split.l1_gas_validators_pct / 100
  { chain with fee_pools :=
      { chain.fee_pools with
          l1_gas := sat_add chain.fee_pools.l1_gas validators,
          treasury := sat_add chain.fee_pools.treasury burn } }

/-- `runtime::ensure_privacy_pool`: the pool under key `"shielded"`, the
default pool if absent. -/
def get_privacy_pool (chain : ChainState) : PrivacyPool :=
  (chain.privacy_pools.lookup "shielded").getD PrivacyPool.default

/-- Replace the entry under `key` in an association-list map, else
append it (the keys of a `HashMap` are unique, so in-place mutation
through the `entry()` reference is replacement of the sole match). -/
def putPool (l : List (String × PrivacyPool)) (key : String)
    (pool : PrivacyPool) : List (String × PrivacyPool) :=
  match l with
  | [] => [(key, pool)]
  | (k, v) :: rest =>
      if k == key then (key, pool) :: rest else (k, v) :: putPool rest key pool

/-- Write back the `"shielded"` pool entry created or mutated through the
`entry().or_insert_with` reference. -/
def set_privacy_pool (chain : ChainState) (pool : PrivacyPool) : ChainState :=
  { chain with privacy_pools := putPool chain.privacy_pools "shielded" pool }

/-- `runtime::compute_merkle_root`: BLAKE3 each commitment to a leaf,
sort, stream into one hasher; the empty set gives the zero hash. -/
def compute_merkle_root (ctx : Ctx) (commitments : List Hash) : Hash :=
  if commitments = [] then 0
  else ctx.hash_stream ((commitments.map ctx.hash_commitment).insertionSort (· ≤ ·))

/-- Replace the first delegation row matching `(delegator, validator_id)`
(models the in-place mutation through the `iter_mut` loop of the
Undelegate branch). -/
def replaceFirstDelegation (l : List Delegation) (delegator : Address)
    (vid : UUID) (d' : Delegation) : List Delegation :=
  match l with
  | [] => []
  | d :: rest =>
      if d.delegator == delegator && d.validator_id == vid then d' :: rest
      else d :: replaceFirstDelegation rest delegator vid d'

/-- The Transfer arm of `apply_tx` (after the admission gate). -/
def transfer_branch (ctx : Ctx) (s : ChainState) (sender_account : Account)
    (gas_used gas_fee : Nat) (toAddr amount : Nat) :
    Except String ExecutionOutcome × ChainState :=
  match ensure_funds sender_account amount gas_fee with
  | .error e => (.error e, s)
  | .ok _ =>
  match checked_sub sender_account.balance_x (amount + gas_fee) with
  | none => (.error "underflow", s)
  | some nb =>
  let sender1 := { sender_account with
                   balance_x := nb,
                   nonce := wrap64 (sender_account.nonce + 1) }
  let store1 := putAccount s.accounts sender1
  let to_account := (getAccount store1 toAddr).getD (default_account toAddr)
  match checked_add to_account.balance_x amount with
  | none => (.error "overflow", { s with accounts := store1 })
  | some tb =>
  let store2 := putAccount store1 { to_account with balance_x := tb }
  let chain1 := route_gas_fee s gas_fee ctx.fee_split
  (.ok ⟨gas_used, ["transfer"]⟩, { chain1 with accounts := store2 })

/-- The Stake arm of `apply_tx`.  When no validator exists for the
sender, the source creates one with `id = Uuid::new_v4()` (modelled by
`ctx.fresh_validator_id`) and `pubkey = tx.signature.clone()` (passed
here as `sig`). -/
def stake_branch (ctx : Ctx) (s : ChainState) (sender : Address)
    (sender_account : Account) (sig : List Nat) (gas_used gas_fee : Nat)
    (amount : Nat) : Except String ExecutionOutcome × ChainState :=
  match ensure_funds sender_account amount gas_fee with
  | .error e => (.error e, s)
  | .ok _ =>
  match checked_sub sender_account.balance_x (amount + gas_fee) with
  | none => (.error "underflow", s)
  | some nb =>
  let sender1 := { sender_account with
                   balance_x := nb,
                   nonce := wrap64 (sender_account.nonce + 1) }
  let store1 := putAccount s.accounts sender1
  match findValidatorByOwner s.validators sender with
  | some v =>
      match checked_add v.stake amount with
      | none => (.error "stake overflow", { s with accounts := store1 })
      | some ns =>
      let validators1 := replaceValidatorByOwner s.validators sender
          { v with stake := ns, status := .Active }
      let chain1 := route_gas_fee { s with validators := validators1 }
          gas_fee ctx.fee_split
      (.ok ⟨gas_used, ["stake"]⟩, { chain1 with accounts := store1 })
  | none =>
      let validator : Validator :=
        { owner := sender, id := ctx.fresh_validator_id,
          pubkey := sig, stake := amount,
          status := .Active, commission_rate := 0 }
      let chain1 := route_gas_fee
          { s with validators := s.validators ++ [validator] }
          gas_fee ctx.fee_split
      (.ok ⟨gas_used, ["stake"]⟩, { chain1 with accounts := store1 })

/-- The Unstake arm of `apply_tx`. -/
def unstake_branch (ctx : Ctx) (s : ChainState) (sender : Address)
    (sender_account : Account) (gas_used gas_fee : Nat) (amount : Nat)
    (current_height : Nat) : Except String ExecutionOutcome × ChainState :=
  if sender_account.balance_x < gas_fee then
    (.error "insufficient funds for gas", s)
  else
  match findValidatorByOwner s.validators sender with
  | none => (.error "no validator for sender", s)
  | some v =>
  if v.stake < amount then (.error "insufficient staked amount", s) else
  let ns := sat_sub v.stake amount
  let v' := { v with
              stake := ns,
              status := if ns == 0 then .Exited else v.status }
  let release_height := sat_add64 current_height ctx.unbonding_delay_blocks
  let pending1 := s.pending_unbonds ++
      [{ owner := sender, validator_id := some v.id,
         amount := amount, release_height := release_height }]
  match checked_sub sender_account.balance_x gas_fee with
  | none => (.error "underflow", s)
  | some nb =>
  let sender1 := { sender_account with
                   balance_x := nb,
                   nonce := wrap64 (sender_account.nonce + 1) }
  let store1 := putAccount s.accounts sender1
  let chain1 := route_gas_fee
      { s with
        validators := replaceValidatorByOwner s.validators sender v',
        pending_unbonds := pending1 }
      gas_fee ctx.fee_split
  (.ok ⟨gas_used, ["unstake_init"]⟩, { chain1 with accounts := store1 })

/-- The Delegate arm of `apply_tx`. -/
def delegate_branch (ctx : Ctx) (s : ChainState) (sender : Address)
    (sender_account : Account) (gas_used gas_fee : Nat)
    (validator : Address) (amount : Nat) :
    Except String ExecutionOutcome × ChainState :=
  match ensure_funds sender_account amount gas_fee with
  | .error e => (.error e, s)
  | .ok _ =>
  match findValidatorByOwner s.validators validator with
  | none => (.error "validator not found", s)
  | some v =>
  match checked_add v.stake amount with
  | none => (.error "stake overflow", s)
  | some ns =>
  let delegations1 := s.delegations ++
      [{ delegator := sender, validator_id := v.id, stake := amount }]
  match checked_sub sender_account.balance_x (amount + gas_fee) with
  | none => (.error "underflow", s)
  | some nb =>
  let sender1 := { sender_account with
                   balance_x := nb,
                   nonce := wrap64 (sender_account.nonce + 1) }
  let store1 := putAccount s.accounts sender1
  let chain1 := route_gas_fee
      { s with
        validators := replaceValidatorByOwner s.validators validator
          { v with stake := ns },
        delegations := delegations1 }
      gas_fee ctx.fee_split
  (.ok ⟨gas_used, ["delegate"]⟩, { chain1 with accounts := store1 })

/-- The Undelegate arm of `apply_tx`. -/
def undelegate_branch (ctx : Ctx) (s : ChainState) (sender : Address)
    (sender_account : Account) (gas_used gas_fee : Nat)
    (validator : Address) (amount : Nat) (current_height : Nat) :
    Except String ExecutionOutcome × ChainState :=
  match findValidatorByOwner s.validators validator with
  | none => (.error "validator not found", s)
  | some v =>
  match s.delegations.find? (fun d =>
      d.delegator == sender && d.validator_id == v.id) with
  | none => (.error "delegation not found", s)
  | some d =>
  if d.stake < amount then
    (.error "undelegate amount exceeds delegation", s)
  else
  let delegations1 := replaceFirstDelegation s.delegations sender v.id
      { d with stake := d.stake - amount }
  let v' := { v with stake := sat_sub v.stake amount }
  let delegations2 := delegations1.filter (fun e => decide (e.stake > 0))
  let release_height := sat_add64 current_height ctx.unbonding_delay_blocks
  let pending1 := s.pending_unbonds ++
      [{ owner := sender, validator_id := some v.id,
         amount := amount, release_height := release_height }]
  match checked_sub sender_account.balance_x gas_fee with
  | none => (.error "underflow", s)
  | some nb =>
  let sender1 := { sender_account with
                   balance_x := nb,
                   nonce := wrap64 (sender_account.nonce + 1) }
  let store1 := putAccount s.accounts sender1
  let chain1 := route_gas_fee
      { s with
        validators := replaceValidatorByOwner s.validators validator v',
        delegations := delegations2,
        pending_unbonds := pending1 }
      gas_fee ctx.fee_split
  (.ok ⟨gas_used, ["undelegate_init"]⟩, { chain1 with accounts := store1 })

/-- The Slash arm of `apply_tx`. -/
def slash_branch (ctx : Ctx) (s : ChainState) (sender_account : Account)
    (gas_used gas_fee : Nat) (validator : Address) (penalty_bps : Nat) :
    Except String ExecutionOutcome × ChainState :=
  match findValidatorByOwner s.validators validator with
  | none => (.error "validator not found", s)
  | some v =>
  let stake_before := v.stake
  if stake_before == 0 then (.error "validator has no stake to slash", s) else
  let effective_bps :=
    min (if penalty_bps == 0 then ctx.slash_penalty_bps else penalty_bps) 10000
  let penalty := sat_mul stake_before effective_bps / 10000
  if penalty == 0 then (.error "penalty too small", s) else
  let delegations1 :=
    if s.delegations.isEmpty then s.delegations
    else (s.delegations.map (fun d =>
        if d.validator_id == v.id then
          { d with stake := sat_sub d.stake (sat_mul penalty d.stake / stake_before) }
        else d)).filter (fun d => decide (d.stake > 0))
  let ns := sat_sub v.stake penalty
  let v' := { v with
              stake := ns,
              status := if ns == 0 then .Jailed else v.status }
  let pools1 := { s.fee_pools with
                  treasury := sat_add s.fee_pools.treasury penalty }
  match checked_sub sender_account.balance_x gas_fee with
  | none => (.error "underflow", s)
  | some nb =>
  let sender1 := { sender_account with
                   balance_x := nb,
                   nonce := wrap64 (sender_account.nonce + 1) }
  let store1 := putAccount s.accounts sender1
  let chain1 := route_gas_fee
      { s with
        validators := replaceValidatorByOwner s.validators validator v',
        delegations := delegations1,
        fee_pools := pools1 }
      gas_fee ctx.fee_split
  (.ok ⟨gas_used, ["slash"]⟩, { chain1 with accounts := store1 })

/-- The PrivacyDeposit arm of `apply_tx`. -/
def privacy_deposit_branch (ctx : Ctx) (s : ChainState)
    (sender_account : Account) (gas_used gas_fee : Nat)
    (commitment : Hash) (amount : Nat) :
    Except String ExecutionOutcome × ChainState :=
  match ensure_positive amount with
  | .error e => (.error e, s)
  | .ok _ =>
  match ensure_funds sender_account amount gas_fee with
  | .error e => (.error e, s)
  | .ok _ =>
  let pool := get_privacy_pool s
  if pool.commitments.contains commitment then
    (.error "commitment already exists in pool", s)
  else
  let commitments1 := pool.commitments ++ [commitment]
  match checked_add pool.total_shielded amount with
  | none => (.error "shielded total overflow", s)
  | some ts =>
  let pool1 := { pool with
                 commitments := commitments1,
                 total_shielded := ts,
                 merkle_root := compute_merkle_root ctx commitments1 }
  match checked_sub sender_account.balance_x (amount + gas_fee) with
  | none => (.error "underflow", s)
  | some nb =>
  let sender1 := { sender_account with
                   balance_x := nb,
                   nonce := wrap64 (sender_account.nonce + 1) }
  let store1 := putAccount s.accounts sender1
  let chain1 := route_gas_fee (set_privacy_pool s pool1) gas_fee ctx.fee_split
  (.ok ⟨gas_used, ["privacy_deposit"]⟩, { chain1 with accounts := store1 })

/-- The PrivacyWithdraw arm of `apply_tx`. -/
def privacy_withdraw_branch (ctx : Ctx) (s : ChainState)
    (sender_account : Account) (gas_used gas_fee : Nat)
    (nullifier : Hash) (recipient : Address) (amount : Nat)
    (merkle_root : Hash) (commitment : Hash) (proof : ProofArtifact) :
    Except String ExecutionOutcome × ChainState :=
  match ensure_positive amount with
  | .error e => (.error e, s)
  | .ok _ =>
  let pool := get_privacy_pool s
  if pool.nullifiers.contains nullifier then
    (.error "nullifier already spent", s)
  else
  if pool.merkle_root ≠ merkle_root then (.error "merkle root mismatch", s) else
  if ¬ pool.commitments.contains commitment then
    (.error "commitment not found in pool", s)
  else
  if pool.total_shielded < amount then
    (.error "insufficient shielded liquidity", s)
  else
  let input : PrivacyWithdrawInput :=
    { nullifier := nullifier, merkle_root := merkle_root,
      recipient := recipient, amount := amount, commitment := commitment }
  if ¬ ctx.zk_ok input proof then (.error "zk verification failed", s) else
  let pool1 := { pool with
                 nullifiers := pool.nullifiers ++ [nullifier],
                 total_shielded := sat_sub pool.total_shielded amount }
  let to_account := (getAccount s.accounts recipient).getD (default_account recipient)
  match checked_add to_account.balance_x amount with
  | none => (.error "overflow", s)
  | some tb =>
  let store1 := putAccount s.accounts { to_account with balance_x := tb }
  match checked_sub sender_account.balance_x gas_fee with
  | none => (.error "insufficient funds for gas", { s with accounts := store1 })
  | some nb =>
  let sender1 := { sender_account with
                   balance_x := nb,
                   nonce := wrap64 (sender_account.nonce + 1) }
  let store2 := putAccount store1 sender1
  let chain1 := route_gas_fee (set_privacy_pool s pool1) gas_fee ctx.fee_split
  (.ok ⟨gas_used, ["privacy_withdraw"]⟩, { chain1 with accounts := store2 })

/-- The RollupBridgeDeposit arm of `apply_tx`. -/
def bridge_deposit_branch (ctx : Ctx) (s : ChainState)
    (sender_account : Account) (gas_used gas_fee : Nat) (amount : Nat) :
    Except String ExecutionOutcome × ChainState :=
  match ensure_funds sender_account amount gas_fee with
  | .error e => (.error e, s)
  | .ok _ =>
  match checked_sub sender_account.balance_x (amount + gas_fee) with
  | none => (.error "underflow", s)
  | some nb =>
  let sender1 := { sender_account with
                   balance_x := nb,
                   nonce := wrap64 (sender_account.nonce + 1) }
  let store1 := putAccount s.accounts sender1
  let pools1 := { s.fee_pools with
                  treasury := sat_add s.fee_pools.treasury amount }
  let chain1 := route_gas_fee { s with fee_pools := pools1 } gas_fee ctx.fee_split
  (.ok ⟨gas_used, ["bridge_deposit"]⟩, { chain1 with accounts := store1 })

/-- The RollupBridgeWithdraw arm of `apply_tx`: the sender balance is
credited with `amount` (mirror image of the deposit) with no debit
anywhere in the chain state. -/
def bridge_withdraw_branch (ctx : Ctx) (s : ChainState)
    (sender_account : Account) (gas_used gas_fee : Nat) (amount : Nat) :
    Except String ExecutionOutcome × ChainState :=
  match checked_add sender_account.balance_x amount with
  | none => (.error "underflow", s)
  | some b1 =>
  match checked_sub b1 gas_fee with
  | none => (.error "underflow", s)
  | some b2 =>
  let sender1 := { sender_account with
                   balance_x := b2,
                   nonce := wrap64 (sender_account.nonce + 1) }
  let store1 := putAccount s.accounts sender1
  let chain1 := route_gas_fee s gas_fee ctx.fee_split
  (.ok ⟨gas_used, ["bridge_withdraw"]⟩, { chain1 with accounts := store1 })

/-- The payload dispatch of `apply_tx`. -/
def apply_branch (ctx : Ctx) (s : ChainState) (sender : Address) (tx : Tx)
    (sender_account : Account) (gas_used gas_fee : Nat)
    (current_height : Nat) : Except String ExecutionOutcome × ChainState :=
  match tx.payload with
  | .Transfer toAddr amount =>
      transfer_branch ctx s sender_account gas_used gas_fee toAddr amount
  | .Stake amount =>
      stake_branch ctx s sender sender_account tx.signature gas_used gas_fee amount
  | .Unstake amount =>
      unstake_branch ctx s sender sender_account gas_used gas_fee amount
        current_height
  | .Delegate validator amount =>
      delegate_branch ctx s sender sender_account gas_used gas_fee validator amount
  | .Undelegate validator amount =>
      undelegate_branch ctx s sender sender_account gas_used gas_fee validator
        amount current_height
  | .Slash validator penalty_bps =>
      slash_branch ctx s sender_account gas_used gas_fee validator penalty_bps
  | .PrivacyDeposit commitment amount =>
      privacy_deposit_branch ctx s sender_account gas_used gas_fee commitment amount
  | .PrivacyWithdraw nullifier recipient amount merkle_root commitment proof =>
      privacy_withdraw_branch ctx s sender_account gas_used gas_fee nullifier
        recipient amount merkle_root commitment proof
  | .RollupBridgeDeposit _ amount =>
      bridge_deposit_branch ctx s sender_account gas_used gas_fee amount
  | .RollupBridgeWithdraw _ amount =>
      bridge_withdraw_branch ctx s sender_account gas_used gas_fee amount

/-- `runtime::apply_tx`.  `sender` is the address recovered by
`verify_tx_signature` from `tx.public_key` (ed25519 verification is
abstracted; a transaction that reaches the runtime with an invalid
signature errors before touching any state, exactly like the early
returns modelled here).  The result pairs the `anyhow::Result` with the
store state left behind — mutations already written through
`put_account` persist even when a later step of the same branch
fails. -/
def apply_tx (ctx : Ctx) (s : ChainState) (sender : Address) (tx : Tx)
    (current_height : Nat) : Except String ExecutionOutcome × ChainState :=
  if tx.chain_id ≠ ctx.chain_id then (.error "invalid chain id", s) else
  let sender_account := (getAccount s.accounts sender).getD (default_account sender)
  if sender_account.nonce ≠ tx.nonce then (.error "invalid nonce", s) else
  let gas_used := gas_cost tx.payload
  match effective_gas_price tx ctx.base_fee with
  | .error e => (.error e, s)
  | .ok gas_price =>
  match checked_mul gas_used gas_price with
  | none => (.error "gas fee overflow", s)
  | some gas_fee =>
  apply_branch ctx s sender tx sender_account gas_used gas_fee current_height

/-- `runtime::BlockHeader`, restricted to the fields the embedded
operations read (`height`, `proposer_id`); the commitment and metadata
fields are carried opaquely by the block producer and never consulted
by `apply_block`. -/
structure BlockHeader where
  parent_hash : Hash
  height : Nat
  timestamp : Nat
  proposer_id : Address
  gas_used : Nat
  gas_limit : Nat
  base_fee : Nat
deriving DecidableEq, Repr

/-- `runtime::Block`. -/
structure Block where
  header : BlockHeader
  transactions : List Tx
deriving DecidableEq, Repr

/-- `runtime::BlockApplyResult`. -/
structure BlockApplyResult where
  state_root : Hash
  gas_used : Nat
  events : List String
deriving DecidableEq, Repr

/-- The drain loop of `process_unbondings`: credit matured entries
through `put_account`, keep the rest.  An overflow error surfaces with
the store accounts credited so far (the `?` return skips
`put_chain_state`). -/
def unbond_drain (current_height : Nat) (entries : List Unbonding)
    (store : List Account) (remaining : List Unbonding) :
    Except (String × List Account) (List Account × List Unbonding) :=
  match entries with
  | [] => .ok (store, remaining)
  | entry :: rest =>
      if entry.release_height > current_height then
        unbond_drain current_height rest store (remaining ++ [entry])
      else
        let account := (getAccount store entry.owner).getD (default_account entry.owner)
        match checked_add account.balance_x entry.amount with
        | none => .error ("balance overflow", store)
        | some nb =>
            unbond_drain current_height rest
              (putAccount store { account with balance_x := nb }) remaining

/-- `runtime::process_unbondings`. -/
def process_unbondings (s : ChainState) (current_height : Nat) :
    Except String Unit × ChainState :=
  if s.pending_unbonds.isEmpty then (.ok (), s)
  else
    match unbond_drain current_height s.pending_unbonds s.accounts [] with
    | .error (e, store) => (.error e, { s with accounts := store })
    | .ok (store, remaining) =>
        (.ok (), { s with accounts := store, pending_unbonds := remaining })

/-- `runtime::total_bonded_stake`. -/
def total_bonded_stake (s : ChainState) : Nat :=
  (s.validators.map (fun v => v.stake)).sum

/-- `runtime::blocks_per_year`. -/
def blocks_per_year (block_time_ms : Nat) : Nat :=
  let ms_per_year := 365 * 24 * 60 * 60 * 1000
  max (ms_per_year / max block_time_ms 1) 1

/-- `runtime::current_inflation_bps`.  The `as u16` cast of the bonded
ratio is the low 16 bits, as in the source. -/
def current_inflation_bps (s : ChainState) (params : RewardParams) : Nat :=
  let supply := max s.total_supply 1
  let staked := total_bonded_stake s
  if staked == 0 then params.max_inflation_bps
  else
    let ratio := (sat_mul (min staked supply) 10000 / supply) % 2 ^ 16
    if ratio ≥ params.target_stake_bps then params.base_inflation_bps
    else params.max_inflation_bps

/-- `runtime::add_payout` over the association-list model of the payout
map. -/
def add_payout (payouts : List (Address × Nat)) (address : Address)
    (amount : Nat) : List (Address × Nat) :=
  if amount == 0 then payouts
  else
    match payouts with
    | [] => [(address, amount)]
    | (a, v) :: rest =>
        if a == address then (a, sat_add v amount) :: rest
        else (a, v) :: add_payout rest address amount

/-- `runtime::credit_payouts`: fold the payout map into the store via
`put_account`; a balance overflow surfaces with the accounts credited so
far. -/
def credit_payouts (store : List Account) (payouts : List (Address × Nat)) :
    Except (String × List Account) (List Account) :=
  match payouts with
  | [] => .ok store
  | (address, amount) :: rest =>
      if amount == 0 then credit_payouts store rest
      else
        let account := (getAccount store address).getD (default_account address)
        match checked_add account.balance_x amount with
        | none => .error ("balance overflow", store)
        | some nb =>
            credit_payouts (putAccount store { account with balance_x := nb }) rest

/-- The per-validator reward distribution loop of
`apply_inflation_rewards` (iterating `chain.validators.values()` in the
stored order), accumulating into the payout map. -/
def reward_loop (s : ChainState) (distributable total_stake : Nat)
    (validators : List Validator) (payouts : List (Address × Nat)) :
    List (Address × Nat) :=
  match validators with
  | [] => payouts
  | v :: rest =>
      if v.stake == 0 then reward_loop s distributable total_stake rest payouts
      else
        let share := sat_mul distributable v.stake / total_stake
        if share == 0 then reward_loop s distributable total_stake rest payouts
        else
          let delegated_total :=
            ((s.delegations.filter (fun d => d.validator_id == v.id)).map
              (fun d => d.stake)).sum
          let self_stake := sat_sub v.stake delegated_total
          let delegated_reward :=
            if v.stake > 0 then sat_mul share delegated_total / v.stake else 0
          let commission := sat_mul delegated_reward v.commission_rate / 100
          let delegator_pool := sat_sub delegated_reward commission
          let self_reward :=
            if v.stake > 0 then sat_mul share self_stake / v.stake else share
          let validator_reward := sat_add self_reward commission
          let payouts1 := add_payout payouts v.owner validator_reward
          let payouts2 :=
            if delegated_total > 0 ∧ delegator_pool > 0 then
              (s.delegations.filter (fun d => d.validator_id == v.id)).foldl
                (fun acc d =>
                  add_payout acc d.delegator
                    (sat_mul delegator_pool d.stake / delegated_total))
                payouts1
            else payouts1
          reward_loop s distributable total_stake rest payouts2

/-- `runtime::apply_inflation_rewards`.  Returns the minted amount (the
`Ok` payload) together with the store state left behind. -/
def apply_inflation_rewards (ctx : Ctx) (s : ChainState) (block : Block) :
    Except String Nat × ChainState :=
  let total_stake := total_bonded_stake s
  if total_stake == 0 then (.ok 0, s)
  else
    let inflation_bps := current_inflation_bps s ctx.reward_params
    let bpy := blocks_per_year ctx.block_time_ms
    let mint := sat_mul s.total_supply inflation_bps / 10000 / bpy
    if mint == 0 then (.ok 0, s)
    else
      let treasury := sat_mul mint ctx.reward_params.treasury_pct / 100
      let pools1 := { s.fee_pools with
                      treasury := sat_add s.fee_pools.treasury treasury }
      let distributable := sat_sub mint treasury
      let proposer_bonus :=
        sat_mul distributable ctx.reward_params.proposer_bonus_pct / 100
      let payouts0 :=
        if proposer_bonus > 0 then add_payout [] block.header.proposer_id proposer_bonus
        else []
      let distributable1 :=
        if proposer_bonus > 0 then sat_sub distributable proposer_bonus
        else distributable
      let payouts :=
        if distributable1 > 0 then
          reward_loop s distributable1 total_stake s.validators payouts0
        else payouts0
      match credit_payouts s.accounts payouts with
      | .error (e, store) => (.error e, { s with accounts := store })
      | .ok store =>
          (.ok mint,
           { s with accounts := store, fee_pools := pools1,
                    total_supply := sat_add s.total_supply mint,
                    last_reward_height := block.header.height })

/-- The transaction loop of `apply_block`: apply each transaction in
header order, accumulate gas (saturating `u64` add), abort past the
block gas limit.  The sender address handed to `apply_tx` is
`address_from_pubkey(tx.public_key)`, supplied by `addr_of_pubkey`
(modelling BLAKE3 address derivation). -/
def block_tx_loop (ctx : Ctx) (addr_of_pubkey : List Nat → Address)
    (height : Nat) (txs : List Tx) (s : ChainState) (gas_used : Nat)
    (events : List String) :
    Except String (ChainState × Nat × List String) × ChainState :=
  match txs with
  | [] => (.ok (s, gas_used, events), s)
  | tx :: rest =>
      match apply_tx ctx s (addr_of_pubkey tx.public_key) tx height with
      | (.error e, s') => (.error e, s')
      | (.ok outcome, s') =>
          let gas1 := sat_add64 gas_used outcome.gas_used
          let events1 := events ++ outcome.events
          if gas1 > ctx.max_gas_per_block then
            (.error "block exceeds gas limit", s')
          else block_tx_loop ctx addr_of_pubkey height rest s' gas1 events1

/-- `runtime::apply_block`. -/
def apply_block (ctx : Ctx) (addr_of_pubkey : List Nat → Address)
    (s : ChainState) (block : Block) :
    Except String BlockApplyResult × ChainState :=
  match block_tx_loop ctx addr_of_pubkey block.header.height
      block.transactions s 0 [] with
  | (.error e, s') => (.error e, s')
  | (.ok (s1, gas_used, events), _) =>
      match process_unbondings s1 block.header.height with
      | (.error e, s') => (.error e, s')
      | (.ok _, s2) =>
          match apply_inflation_rewards ctx s2 block with
          | (.error e, s') => (.error e, s')
          | (.ok mint, s3) =>
              let events1 := if mint > 0 then events ++ ["block_reward"] else events
              (.ok { state_root := ctx.commit_root s3, gas_used := gas_used,
                     events := events1 }, s3)

/-! ## Consensus engine (`blockchain/protocol/consensus/src/lib.rs`) -/

/-- `consensus::SignedVote`. -/
structure SignedVote where
  block_id : Hash
  view : Nat
  voter : Validator
  signature : List Nat
deriving DecidableEq, Repr

/-- `consensus::QuorumCertificate`. -/
structure QuorumCertificate where
  block_id : Hash
  view : Nat
  signatures : List (List Nat)
  voters : List UUID
deriving DecidableEq, Repr

/-- `consensus::ConsensusState`. -/
structure ConsensusState where
  view : Nat
  height : Nat
  locked_qc : Option QuorumCertificate
  pending_qc : Option QuorumCertificate
deriving DecidableEq, Repr

/-- `consensus::VoteTally`. -/
structure VoteTally where
  stake : Nat
  voters : List UUID
  signatures : List (List Nat)
deriving DecidableEq, Repr

/-- `VoteTally::default()`. -/
def VoteTally.default : VoteTally := { stake := 0, voters := [], signatures := [] }

/-- `consensus::HotStuffInner`, restricted to the fields `vote` and the
quorum rule consult (`pending_blocks`/`block_tree` are only touched by
`propose`/`on_qc`). -/
structure HotStuffInner where
  state : ConsensusState
  votes : List ((Hash × Nat) × VoteTally)
  validators : List Validator
  commit_queue : List Hash
  total_stake : Nat
deriving DecidableEq, Repr

/-- `HotStuffEngine::new`. -/
def HotStuffInner.new (validators : List Validator) : HotStuffInner :=
  { state := { view := 0, height := 0, locked_qc := none, pending_qc := none },
    votes := [],
    total_stake := (validators.map (fun v => v.stake)).sum,
    validators := validators,
    commit_queue := [] }

/-- `HotStuffInner::quorum_threshold`. -/
def quorum_threshold (inner : HotStuffInner) : Nat :=
  inner.total_stake * 2 / 3 + 1

/-- `HotStuffInner::leader_for_view`. -/
def leader_for_view (inner : HotStuffInner) (view : Nat) : Option Validator :=
  if inner.validators.isEmpty then none
  else
    let slot := view % max inner.total_stake 1
    let rec go (slot : Nat) : List Validator → Option Validator
      | [] => inner.validators.head?
      | v :: rest => if slot < v.stake then some v else go (slot - v.stake) rest
    go slot inner.validators

/-- `consensus::verify_vote`: membership of the voter in the validator
set and the pubkey match are structural; the ed25519 signature check is
the abstract predicate `sigOk`. -/
def verify_vote (sigOk : SignedVote → Bool) (vote : SignedVote)
    (validators : List Validator) : Except String Unit :=
  match validators.find? (fun v => v.id == vote.voter.id) with
  | none => .error "voter not in validator set"
  | some expected =>
      if expected.pubkey ≠ vote.voter.pubkey then .error "voter pubkey mismatch"
      else if ¬ sigOk vote then .error "invalid signature"
      else .ok ()

/-- `votes.entry((block_id, view)).or_insert_with(default)` followed by
writing back the mutated tally. -/
def putTally (votes : List ((Hash × Nat) × VoteTally)) (key : Hash × Nat)
    (tally : VoteTally) : List ((Hash × Nat) × VoteTally) :=
  match votes with
  | [] => [(key, tally)]
  | (k, t) :: rest =>
      if k == key then (key, tally) :: rest else (k, t) :: putTally rest key tally

/-- `HotStuffEngine::vote`: verify, deduplicate by voter id, accumulate
stake, and on reaching the quorum threshold form a certificate and push
the block id onto the commit queue. -/
def vote_step (sigOk : SignedVote → Bool) (inner : HotStuffInner)
    (vote : SignedVote) : Except String Unit × HotStuffInner :=
  match verify_vote sigOk vote inner.validators with
  | .error e => (.error e, inner)
  | .ok _ =>
      let block_id := vote.block_id
      let view := vote.view
      let threshold := quorum_threshold inner
      let tally := ((inner.votes.lookup (block_id, view)).getD VoteTally.default)
      if tally.voters.contains vote.voter.id then (.ok (), inner)
      else
        let tally1 : VoteTally :=
          { voters := tally.voters ++ [vote.voter.id],
            stake := sat_add tally.stake vote.voter.stake,
            signatures := tally.signatures ++ [vote.signature] }
        let votes1 := putTally inner.votes (block_id, view) tally1
        if tally1.stake ≥ threshold then
          let qc : QuorumCertificate :=
            { block_id := block_id, view := view,
              signatures := tally1.signatures, voters := tally1.voters }
          (.ok (),
           { inner with
                        votes := votes1,
                        state := { inner.state with
                                   pending_qc := some qc,
                                   locked_qc := some qc },
                        commit_queue := inner.commit_queue ++ [block_id] })
        else (.ok (), { inner with votes := votes1 })

/-- Fold a list of votes through `vote_step`, discarding the per-vote
verdicts (each call is an independent `engine.vote(...)`). -/
def vote_many (sigOk : SignedVote → Bool) (inner : HotStuffInner)
    (votes : List SignedVote) : HotStuffInner :=
  votes.foldl (fun st v => (vote_step sigOk st v).2) inner

/-! ## Data availability (`blockchain/protocol/da/src/lib.rs`)

`H2 l r` models `blake3::hash(l ‖ r)` on two 32-byte nodes and
`hashShard` models `blake3::hash` of a shard's bytes. -/

/-- `da::DACommitment`. -/
structure DACommitment where
  root : Hash
  total_shards : Nat
  data_shards : Nat
  parity_shards : Nat
  shard_size : Nat
deriving DecidableEq, Repr

/-- `da::SampleProof`. -/
structure SampleProof where
  shard_index : Nat
  shard_hash : Hash
  merkle_path : List Hash
deriving DecidableEq, Repr

/-- `da::DAProof`. -/
structure DAProof where
  blob_id : String
  commitment : DACommitment
  samples : List SampleProof
deriving DecidableEq, Repr

/-- `da::DAConfig`. -/
structure DAConfig where
  shard_size : Nat
  data_shards : Nat
  parity_shards : Nat
deriving DecidableEq, Repr

/-- One pass of the `while level.len() > 1` loop body: pairwise combine,
duplicating the last odd leaf. -/
def merkle_level (H2 : Hash → Hash → Hash) : List Hash → List Hash
  | [] => []
  | [a] => [H2 a a]
  | a :: b :: rest => H2 a b :: merkle_level H2 rest

theorem merkle_level_length (H2 : Hash → Hash → Hash) (l : List Hash) :
    (merkle_level H2 l).length = (l.length + 1) / 2 := by
  induction l using merkle_level.induct H2 with
  | _ => simp [merkle_level, *]; try omega

/-- The `while level.len() > 1` loop of `merkle_root`. -/
def merkle_climb (H2 : Hash → Hash → Hash) (level : List Hash) : Hash :=
  match level with
  | [] => 0
  | [a] => a
  | a :: b :: rest => merkle_climb H2 (merkle_level H2 (a :: b :: rest))
termination_by level.length
decreasing_by simp [merkle_level_length]; omega

/-- `da::merkle_root`. -/
def da_merkle_root (H2 : Hash → Hash → Hash) (leaves : List Hash) : Hash :=
  if leaves = [] then 0 else merkle_climb H2 leaves

/-- The sibling-collection loop of `da::merkle_proof`, on the leaf level
(out-of-bounds `level[..]` reads are modelled with `getD`; the loop only
indexes in bounds). -/
def merkle_path_from (H2 : Hash → Hash → Hash) (level : List Hash)
    (idx : Nat) : List Hash :=
  match level with
  | [] => []
  | [_] => []
  | a :: b :: rest =>
      let l := a :: b :: rest
      let sibling := if idx % 2 == 0 then idx + 1 else idx - 1
      let entry := if sibling < l.length then l.getD sibling 0 else l.getD idx 0
      entry :: merkle_path_from H2 (merkle_level H2 l) (idx / 2)
termination_by level.length
decreasing_by simp [merkle_level_length]; omega

/-- `da::merkle_proof`. -/
def merkle_proof (hashShard : List Nat → Hash) (H2 : Hash → Hash → Hash)
    (shards : List (List Nat)) (index : Nat) : List Hash :=
  merkle_path_from H2 (shards.map hashShard) index

/-- The running recomputation loop of `da::verify_merkle_path`. -/
def path_root (H2 : Hash → Hash → Hash) (leaf : Hash) (path : List Hash)
    (index : Nat) : Hash :=
  match path with
  | [] => leaf
  | sibling :: rest =>
      let h := if index % 2 == 0 then H2 leaf sibling else H2 sibling leaf
      path_root H2 h rest (index / 2)

/-- `da::verify_merkle_path`: recompute from the leaf along the path and
compare with the root. -/
def verify_merkle_path (H2 : Hash → Hash → Hash) (leaf : Hash)
    (path : List Hash) (root : Hash) (index : Nat) : Bool :=
  path_root H2 leaf path index == root

/-- `da::verify_da_proof`. -/
def verify_da_proof (H2 : Hash → Hash → Hash) (proof : DAProof) : Bool :=
  proof.samples.all (fun sample =>
    verify_merkle_path H2 sample.shard_hash sample.merkle_path
      proof.commitment.root sample.shard_index)

/-- Bytewise XOR of two shards (`parity[i] ^= byte`). -/
def xor_shard (a b : List Nat) : List Nat := a.zipWith Nat.xor b

/-- `InMemoryDA::shard_blob`: chunk the blob into `shard_size` pieces
(zero-padding the last), pad the data shards up to `data_shards`, append
`parity_shards` XOR-fold shards, hash every shard to a leaf and commit
to the Merkle root of the leaves. -/
def shard_blob (hashShard : List Nat → Hash) (H2 : Hash → Hash → Hash)
    (cfg : DAConfig) (blob : List Nat) : List (List Nat) × DACommitment :=
  let chunks := blob.toChunks cfg.shard_size
  let data0 := chunks.map (fun c => c ++ List.replicate (cfg.shard_size - c.length) 0)
  let data := data0 ++ List.replicate (cfg.data_shards - data0.length)
      (List.replicate cfg.shard_size 0)
  let parity := List.replicate cfg.parity_shards
      (data.foldl xor_shard (List.replicate cfg.shard_size 0))
  let shards := data ++ parity
  let leaf_hashes := shards.map hashShard
  let root := da_merkle_root H2 leaf_hashes
  (shards,
   { root := root, total_shards := leaf_hashes.length,
     data_shards := cfg.data_shards, parity_shards := cfg.parity_shards,
     shard_size := cfg.shard_size })

/-- `da::derive_sample_proofs`.  The `StdRng::seed_from_u64(42)` index
stream is modelled by the explicit list `idxs` of sampled indices
(`gen_range(0..shards.len())` keeps every index in bounds). -/
def derive_sample_proofs (hashShard : List Nat → Hash)
    (H2 : Hash → Hash → Hash) (shards : List (List Nat)) (idxs : List Nat) :
    List SampleProof :=
  idxs.map (fun idx =>
    { shard_index := idx,
      shard_hash := hashShard (shards.getD idx []),
      merkle_path := merkle_proof hashShard H2 shards idx })

/-- `InMemoryDA::prove_blob_availability` for a stored blob: proofs for
the sampled indices against the stored commitment. -/
def prove_blob_availability (hashShard : List Nat → Hash)
    (H2 : Hash → Hash → Hash) (blob_id : String) (shards : List (List Nat))
    (commitment : DACommitment) (idxs : List Nat) : DAProof :=
  { blob_id := blob_id, commitment := commitment,
    samples := derive_sample_proofs hashShard H2 shards idxs }

/-- Collision-freeness of the two-node combiner: the property of
`blake3::hash(l ‖ r)` (no collisions between distinct node pairs) that
Merkle-path soundness rests on. -/
def PairInjective (H2 : Hash → Hash → Hash) : Prop :=
  ∀ a b c d, H2 a b = H2 c d → a = c ∧ b = d

/-! ## State store (`blockchain/protocol/state/src/lib.rs`)

`stream` models streaming the sorted leaves into a single BLAKE3 hasher;
the `LeafHashers` fields model `blake3::hash ∘ bincode::serialize` per
entity.  The zero hash `0` models the 32 zero bytes. -/

/-- `state::fold_hashes`: sort the leaves, then stream them into one
hasher; the empty collection folds to the 32 zero bytes. -/
def fold_hashes (stream : List Hash → Hash) (leaves : List Hash) : Hash :=
  if leaves = [] then 0 else stream (leaves.insertionSort (· ≤ ·))

/-- The canonical leaf encodings (`blake3::hash ∘ bincode::serialize`)
used by `ChainState::state_root`, one per entity kind, plus the
streaming hasher. -/
structure LeafHashers where
  account : Account → Hash
  validator : Validator → Hash
  delegation : Delegation → Hash
  fee_pools : FeePools → Hash
  pool : PrivacyPool → Hash
  supply : Nat → Hash
  height : Nat → Hash
  unbond : Unbonding → Hash
  stream : List Hash → Hash

/-- The leaf collection of `ChainState::state_root` over the embedded
collections, in source order (the omitted `domains`, `da_commitments`,
`domain_roots`, `proposals` and `governance_params` leaves are collected
by the same per-entity pattern between `delegations` and
`fee_pools`). -/
def state_leaves (hs : LeafHashers) (s : ChainState) : List Hash :=
  s.accounts.map hs.account ++
  s.validators.map hs.validator ++
  s.delegations.map hs.delegation ++
  [hs.fee_pools s.fee_pools] ++
  s.privacy_pools.map (fun kv => hs.pool kv.2) ++
  [hs.supply s.total_supply, hs.height s.last_reward_height] ++
  s.pending_unbonds.map hs.unbond

/-- `ChainState::state_root`. -/
def state_root (hs : LeafHashers) (s : ChainState) : Hash :=
  fold_hashes hs.stream (state_leaves hs s)

/-! ## The supply-conservation sum (spec §3, invariants)

`Σ accounts.balance + Σ validator.stake + Σ fee_pools
 + Σ pending_unbonds.amount + Σ privacy_pool.total_shielded`. -/

/-- Σ `accounts.balance`. -/
def sum_balances (l : List Account) : Nat := (l.map (fun a => a.balance_x)).sum

/-- Σ `validator.stake`. -/
def sum_stakes (l : List Validator) : Nat := (l.map (fun v => v.stake)).sum

/-- Σ over the four fee-pool accumulators. -/
def pools_sum (p : FeePools) : Nat := p.l1_gas + p.da + p.sequencer + p.treasury

/-- Σ `pending_unbonds.amount`. -/
def sum_unbonds (l : List Unbonding) : Nat := (l.map (fun u => u.amount)).sum

/-- Σ `privacy_pool.total_shielded`. -/
def sum_shielded (l : List (String × PrivacyPool)) : Nat :=
  (l.map (fun kv => kv.2.total_shielded)).sum

/-- The conserved quantity of the supply-conservation invariant. -/
def conserved_sum (s : ChainState) : Nat :=
  sum_balances s.accounts + sum_stakes s.validators + pools_sum s.fee_pools +
  sum_unbonds s.pending_unbonds + sum_shielded s.privacy_pools

/-- The payload kinds (with their aliasing/coverage side conditions) for
which per-transaction supply conservation holds; `RollupBridgeWithdraw`
mints the withdrawn amount into the sender balance with no matching
debit, an `Undelegate` that exceeds the validator's recorded stake
saturates the stake subtraction while enqueuing the full amount, and a
`PrivacyWithdraw` paying the sender itself overwrites the credited
balance with the stale sender snapshot. -/
def conservative (s : ChainState) (sender : Address) : TxPayload → Prop
  | .Transfer _ _ => True
  | .Stake _ => True
  | .Unstake _ => True
  | .Delegate _ _ => True
  | .Undelegate validator amount =>
      ∀ v, findValidatorByOwner s.validators validator = some v → amount ≤ v.stake
  | .Slash _ _ => True
  | .PrivacyDeposit _ _ => True
  | .PrivacyWithdraw _ recipient _ _ _ _ => recipient ≠ sender
  | .RollupBridgeDeposit _ _ => True
  | .RollupBridgeWithdraw _ _ => False


/-! ## Concrete fixtures

The genesis defaults of `bootstrap_state` (fee split 30/70, base fee 1,
`RewardParams::default`), the scenario S1 account, and small states
exercised by the claim theorems.  The abstract primitives are
instantiated with trivial functions; no claim below depends on their
values. -/

/-- The `bootstrap_state` fee split (30% burn, 70% validators). -/
def demo_split : FeeSplit :=
  { l1_gas_burn_pct := 30, l1_gas_validators_pct := 70,
    da_validators_pct := 70, da_nodes_pct := 20, da_treasury_pct := 10,
    l2_sequencer_pct := 50, l2_da_costs_pct := 30, l2_l1_rent_pct := 20 }

/-- `RewardParams::default()`. -/
def demo_rewards : RewardParams :=
  { base_inflation_bps := 500, max_inflation_bps := 1500,
    target_stake_bps := 6700, treasury_pct := 10, proposer_bonus_pct := 5 }

/-- An execution context with the genesis defaults; the fresh v4
validator id drawn by this run is 42. -/
def demo_ctx : Ctx :=
  { fee_split := demo_split, chain_id := "kova-devnet", base_fee := 1,
    max_gas_per_block := 30000000, block_time_ms := 1000,
    reward_params := demo_rewards, unbonding_delay_blocks := 10,
    slash_penalty_bps := 500, fresh_validator_id := 42,
    zk_ok := fun _ _ => true, hash_commitment := fun h => h,
    hash_stream := fun _ => 0, commit_root := fun _ => 0 }

/-- The same context in a second run of the node, where `Uuid::new_v4()`
draws 43 instead. -/
def demo_ctx' : Ctx := { demo_ctx with fresh_validator_id := 43 }

/-- Scenario S1 genesis: account A (address 1) funded with 1,000,000. -/
def S1_state : ChainState :=
  { accounts := [{ address := 1, nonce := 0, balance_x := 1000000,
                   code_hash := none, storage_root := none }],
    validators := [], delegations := [],
    fee_pools := { l1_gas := 0, da := 0, sequencer := 0, treasury := 0 },
    privacy_pools := [], total_supply := 1000000,
    last_reward_height := 0, pending_unbonds := [] }

/-- Scenario S1 transaction: A sends 10 to B (address 2) with
gas_limit 21,000, max_fee 1 (base_fee is 1). -/
def S1_tx : Tx :=
  { chain_id := "kova-devnet", nonce := 0, gas_limit := 21000,
    max_fee := some 1, max_priority_fee := none, gas_price := none,
    payload := .Transfer 2 10, public_key := [7], signature := [9] }

/-- A stake transaction creating a validator for sender 1. -/
def stake_tx : Tx :=
  { chain_id := "kova-devnet", nonce := 0, gas_limit := 50000,
    max_fee := none, max_priority_fee := none, gas_price := some 1,
    payload := .Stake 100000, public_key := [7], signature := [9] }

/-- A state holding 100 units, all in account 1, with matching supply. -/
def bridge_state : ChainState :=
  { accounts := [{ address := 1, nonce := 0, balance_x := 100,
                   code_hash := none, storage_root := none }],
    validators := [], delegations := [],
    fee_pools := { l1_gas := 0, da := 0, sequencer := 0, treasury := 0 },
    privacy_pools := [], total_supply := 100,
    last_reward_height := 0, pending_unbonds := [] }

/-- A rollup-bridge withdrawal of 50 at gas price 0. -/
def bridge_tx : Tx :=
  { chain_id := "kova-devnet", nonce := 0, gas_limit := 50000,
    max_fee := none, max_priority_fee := none, gas_price := some 0,
    payload := .RollupBridgeWithdraw 7 50, public_key := [7], signature := [9] }

/-- A PrivacyDeposit of amount 0 (zero-amount shielded operation). -/
def zero_dep_tx : Tx :=
  { chain_id := "kova-devnet", nonce := 0, gas_limit := 80000,
    max_fee := none, max_priority_fee := none, gas_price := some 1,
    payload := .PrivacyDeposit 5 0, public_key := [7], signature := [9] }

/-- Consensus validator with stake 10. -/
def cval1 : Validator :=
  { owner := 11, id := 101, pubkey := [1], stake := 10,
    status := .Active, commission_rate := 0 }

/-- Consensus validator with stake 15. -/
def cval2 : Validator :=
  { owner := 12, id := 102, pubkey := [2], stake := 15,
    status := .Active, commission_rate := 0 }

/-- Consensus validator with stake 25. -/
def cval3 : Validator :=
  { owner := 13, id := 103, pubkey := [3], stake := 25,
    status := .Active, commission_rate := 0 }

/-- A fresh engine over the three validators (total stake 50). -/
def demo_engine : HotStuffInner := HotStuffInner.new [cval1, cval2, cval3]

/-- Every embedded signature verifies (ed25519 abstracted away). -/
def sigT : SignedVote → Bool := fun _ => true

/-- Validator 1's vote for block 777 at view 0. -/
def w1 : SignedVote :=
  { block_id := 777, view := 0, voter := cval1, signature := [21] }

/-- Validator 2's vote for block 777 at view 0. -/
def w2 : SignedVote :=
  { block_id := 777, view := 0, voter := cval2, signature := [22] }

/-- Validator 3's vote for block 777 at view 0. -/
def w3 : SignedVote :=
  { block_id := 777, view := 0, voter := cval3, signature := [23] }

/-- The engine after validator 1's vote has been tallied. -/
def demo_engine1 : HotStuffInner := vote_many sigT demo_engine [w1]

/-- A state with account 1 (balance 1,000) owning validator 9 with
stake 500. -/
def us_state : ChainState :=
  { accounts := [{ address := 1, nonce := 0, balance_x := 1000,
                   code_hash := none, storage_root := none }],
    validators := [{ owner := 1, id := 9, pubkey := [7], stake := 500,
                     status := .Active, commission_rate := 0 }],
    delegations := [],
    fee_pools := { l1_gas := 0, da := 0, sequencer := 0, treasury := 0 },
    privacy_pools := [], total_supply := 1500,
    last_reward_height := 0, pending_unbonds := [] }

/-- An unstake of 200 at gas price 0. -/
def unstake_tx : Tx :=
  { chain_id := "kova-devnet", nonce := 0, gas_limit := 50000,
    max_fee := none, max_priority_fee := none, gas_price := some 0,
    payload := .Unstake 200, public_key := [7], signature := [9] }

/-- The state left behind by `unstake_tx` applied to `us_state` at
height 5. -/
def us_after : ChainState := (apply_tx demo_ctx us_state 1 unstake_tx 5).2

/-- Account 1 after the unstake, before the unbonding matures. -/
def unbond_acct : Account :=
  { address := 1, nonce := 1, balance_x := 800,
    code_hash := none, storage_root := none }

/-- A pending unbonding of 200 releasing at height 15. -/
def unbond_entry : Unbonding :=
  { owner := 1, validator_id := some 9, amount := 200, release_height := 15 }

/-- A state carrying `unbond_entry` in its unbonding queue. -/
def mature_state : ChainState :=
  { accounts := [unbond_acct],
    validators := [{ owner := 1, id := 9, pubkey := [7], stake := 300,
                     status := .Active, commission_rate := 0 }],
    delegations := [],
    fee_pools := { l1_gas := 0, da := 0, sequencer := 0, treasury := 0 },
    privacy_pools := [], total_supply := 1500,
    last_reward_height := 0, pending_unbonds := [unbond_entry] }

/-- A privacy pool holding one commitment (55) and 100 shielded units,
with the zero merkle root produced by `demo_ctx.hash_stream`. -/
def pw_pool : PrivacyPool :=
  { merkle_root := 0, nullifiers := [], commitments := [55],
    total_shielded := 100 }

/-- A state carrying `pw_pool` and a funded sender (address 1). -/
def pw_state : ChainState :=
  { accounts := [{ address := 1, nonce := 0, balance_x := 100,
                   code_hash := none, storage_root := none }],
    validators := [], delegations := [],
    fee_pools := { l1_gas := 0, da := 0, sequencer := 0, treasury := 0 },
    privacy_pools := [("shielded", pw_pool)], total_supply := 200,
    last_reward_height := 0, pending_unbonds := [] }

/-- A shielded withdrawal of 40 to address 2 spending nullifier 77. -/
def pw_tx1 : Tx :=
  { chain_id := "kova-devnet", nonce := 0, gas_limit := 120000,
    max_fee := none, max_priority_fee := none, gas_price := some 0,
    payload := .PrivacyWithdraw 77 2 40 0 55 0,
    public_key := [7], signature := [9] }

/-- The state after `pw_tx1` has been applied to `pw_state`. -/
def pw_after : ChainState := (apply_tx demo_ctx pw_state 1 pw_tx1 0).2

/-- A second withdrawal reusing nullifier 77 (different recipient and
amount, sent by address 4). -/
def pw_tx2 : Tx :=
  { chain_id := "kova-devnet", nonce := 0, gas_limit := 120000,
    max_fee := none, max_priority_fee := none, gas_price := some 0,
    payload := .PrivacyWithdraw 77 3 30 0 55 0,
    public_key := [8], signature := [10] }

/-- Address recovery for the block fixtures: the address is the first
byte of the transaction public key. -/
def c9_addr : List Nat → Address := fun pk => pk.headD 0

/-- First block transaction: address 1 sends its whole balance of 10 to
address 2 at gas price 0. -/
def c9_t1 : Tx :=
  { chain_id := "kova-devnet", nonce := 0, gas_limit := 21000,
    max_fee := none, max_priority_fee := none, gas_price := some 0,
    payload := .Transfer 2 10, public_key := [1], signature := [4] }

/-- Second block transaction: address 1 tries to send another 10 (it is
now broke, so this fails). -/
def c9_t2 : Tx :=
  { chain_id := "kova-devnet", nonce := 1, gas_limit := 21000,
    max_fee := none, max_priority_fee := none, gas_price := some 0,
    payload := .Transfer 3 10, public_key := [1], signature := [5] }

/-- Genesis for the block fixtures: address 1 holds 10 units. -/
def c9_state : ChainState :=
  { accounts := [{ address := 1, nonce := 0, balance_x := 10,
                   code_hash := none, storage_root := none }],
    validators := [], delegations := [],
    fee_pools := { l1_gas := 0, da := 0, sequencer := 0, treasury := 0 },
    privacy_pools := [], total_supply := 10,
    last_reward_height := 0, pending_unbonds := [] }

/-- Header for the block fixtures (height 1). -/
def c9_header : BlockHeader :=
  { parent_hash := 0, height := 1, timestamp := 0, proposer_id := 1,
    gas_used := 0, gas_limit := 30000000, base_fee := 1 }

/-- A block whose second transaction fails. -/
def c9_block : Block := { header := c9_header, transactions := [c9_t1, c9_t2] }

/-- The state left behind by the failing block. -/
def c9_after : ChainState := (apply_block demo_ctx c9_addr c9_state c9_block).2

/-- The same block truncated to its valid first transaction. -/
def c9_ok_block : Block := { header := c9_header, transactions := [c9_t1] }

/-- The state after the valid one-transaction block. -/
def c9_ok_after : ChainState :=
  (apply_block demo_ctx c9_addr c9_state c9_ok_block).2

/-- The result record of the valid one-transaction block. -/
def c9_ok_res : BlockApplyResult :=
  { state_root := 0, gas_used := 21000, events := ["transfer"] }

/-- Concrete leaf hashers for the state-root fixtures (injective enough
to make the roots depend on every leaf; the stream is a position-aware
fold, so unsorted inputs would disagree). -/
def rootH : LeafHashers :=
  { account := fun a => a.address * 1000 + a.balance_x,
    validator := fun v => v.id * 1000 + v.stake,
    delegation := fun d => d.stake,
    fee_pools := fun p => p.treasury,
    pool := fun p => p.total_shielded,
    supply := fun n => n,
    height := fun n => n,
    unbond := fun u => u.amount,
    stream := fun l => l.foldl (fun a b => 31 * a + b) 7 }

/-- A state whose containers hold two accounts and two validators in one
iteration order. -/
def s8a : ChainState :=
  { accounts := [{ address := 1, nonce := 0, balance_x := 5,
                   code_hash := none, storage_root := none },
                 { address := 2, nonce := 0, balance_x := 7,
                   code_hash := none, storage_root := none }],
    validators := [{ owner := 1, id := 9, pubkey := [7], stake := 500,
                     status := .Active, commission_rate := 0 },
                   { owner := 2, id := 10, pubkey := [8], stake := 600,
                     status := .Active, commission_rate := 0 }],
    delegations := [],
    fee_pools := { l1_gas := 1, da := 2, sequencer := 3, treasury := 4 },
    privacy_pools := [("shielded", PrivacyPool.default)],
    total_supply := 12, last_reward_height := 0, pending_unbonds := [] }

/-- The same contents with both container orders reversed. -/
def s8b : ChainState :=
  { accounts := [{ address := 2, nonce := 0, balance_x := 7,
                   code_hash := none, storage_root := none },
                 { address := 1, nonce := 0, balance_x := 5,
                   code_hash := none, storage_root := none }],
    validators := [{ owner := 2, id := 10, pubkey := [8], stake := 600,
                     status := .Active, commission_rate := 0 },
                   { owner := 1, id := 9, pubkey := [7], stake := 500,
                     status := .Active, commission_rate := 0 }],
    delegations := [],
    fee_pools := { l1_gas := 1, da := 2, sequencer := 3, treasury := 4 },
    privacy_pools := [("shielded", PrivacyPool.default)],
    total_supply := 12, last_reward_height := 0, pending_unbonds := [] }

/-- Shard hashing for the DA fixtures (a base-31 fold, paired with the
injective `Nat.pair` as the two-node combiner). -/
def daH : List Nat → Hash := fun l => l.foldl (fun a b => 31 * a + b) 7

/-- A 2+1 sharding configuration with 2-byte shards. -/
def da_cfg : DAConfig :=
  { shard_size := 2, data_shards := 2, parity_shards := 1 }

/-- A 3-byte blob (sharded into [1,2], [3,0] and the parity [2,2]). -/
def da_blob : List Nat := [1, 2, 3]

/-- The shards of `da_blob`. -/
def da_shards : List (List Nat) := (shard_blob daH Nat.pair da_cfg da_blob).1

/-- The commitment to `da_blob`. -/
def da_comm : DACommitment := (shard_blob daH Nat.pair da_cfg da_blob).2

/-- An availability proof sampling all three shard indices. -/
def da_dp : DAProof :=
  prove_blob_availability daH Nat.pair "blob-1" da_shards da_comm [0, 2, 1]

/-- The first sample of `da_dp` (shard index 0). -/
def da_s0 : SampleProof :=
  { shard_index := 0, shard_hash := daH (da_shards.getD 0 []),
    merkle_path := merkle_proof daH Nat.pair da_shards 0 }

/-- The remaining samples of `da_dp`. -/
def da_rest : List SampleProof := da_dp.samples.drop 1

/-! # Helper lemmas

Basic facts about the machine-integer operations, the association-list
containers and the fee routing, used by the claim theorems below. -/


theorem checked_add_some {a b c : Nat} (h : checked_add a b = some c) :
    c = a + b ∧ a + b ≤ U128_MAX := by
  unfold checked_add at h
  split at h <;> simp_all

theorem checked_sub_some {a b c : Nat} (h : checked_sub a b = some c) :
    c = a - b ∧ b ≤ a := by
  unfold checked_sub at h
  split at h <;> simp_all

theorem checked_mul_some {a b c : Nat} (h : checked_mul a b = some c) :
    c = a * b ∧ a * b ≤ U128_MAX := by
  unfold checked_mul at h
  split at h <;> simp_all

theorem ensure_funds_ok {acct : Account} {amount gas_fee : Nat} {u : Unit}
    (h : ensure_funds acct amount gas_fee = .ok u) :
    amount + gas_fee ≤ U128_MAX ∧ amount + gas_fee ≤ acct.balance_x := by
  unfold ensure_funds at h
  split at h
  · exact absurd h (by simp)
  next total heq =>
    obtain ⟨rfl, hle⟩ := checked_add_some heq
    split at h
    · exact absurd h (by simp)
    next hlt => exact ⟨hle, by omega⟩

theorem balance_le_sum {l : List Account} {a : Account} (h : a ∈ l) :
    a.balance_x ≤ sum_balances l := by
  induction l with
  | nil => simp at h
  | cons hd tl ih =>
      rw [List.mem_cons] at h
      rcases h with rfl | h
      · simp [sum_balances]
      · have := ih h
        simp [sum_balances] at this ⊢
        omega

theorem sum_balances_put (l : List Account) (a : Account) :
    sum_balances (putAccount l a) + (getAccount l a.address).elim 0 (fun b => b.balance_x)
      = sum_balances l + a.balance_x := by
  induction l with
  | nil => simp [putAccount, getAccount, sum_balances]
  | cons hd tl ih =>
      by_cases h : hd.address = a.address
      · simp [putAccount, getAccount, sum_balances, h]
        omega
      · have hb : (hd.address == a.address) = false := by simp [h]
        simp [putAccount, getAccount, sum_balances, hb] at ih ⊢
        omega

theorem sum_stakes_replace (l : List Validator) (owner : Address) (v v' : Validator)
    (hf : findValidatorByOwner l owner = some v) :
    sum_stakes (replaceValidatorByOwner l owner v') + v.stake
      = sum_stakes l + v'.stake := by
  induction l with
  | nil => simp [findValidatorByOwner] at hf
  | cons hd tl ih =>
      by_cases h : hd.owner = owner
      · simp [findValidatorByOwner, h] at hf
        subst hf
        simp [replaceValidatorByOwner, sum_stakes, h]
        omega
      · have hb : (hd.owner == owner) = false := by simp [h]
        simp [findValidatorByOwner, hb] at hf
        have := ih (by simpa [findValidatorByOwner] using hf)
        simp [replaceValidatorByOwner, sum_stakes, hb] at this ⊢
        omega

theorem lookup_putPool (l : List (String × PrivacyPool)) (key : String) (p : PrivacyPool) :
    (putPool l key p).lookup key = some p := by
  induction l with
  | nil => simp [putPool]
  | cons hd tl ih =>
      by_cases h : hd.1 = key
      · simp [putPool, h, List.lookup]
      · cases hd with
        | mk k v =>
          have hb : (k == key) = false := by simp at h ⊢; exact h
          have hb2 : (key == k) = false := by
            simp at h ⊢; exact fun hh => h hh.symm
          simp [putPool, hb, hb2, List.lookup, ih]

theorem sum_shielded_putPool (l : List (String × PrivacyPool)) (key : String) (p : PrivacyPool) :
    sum_shielded (putPool l key p) + (l.lookup key).elim 0 (fun q => q.total_shielded)
      = sum_shielded l + p.total_shielded := by
  induction l with
  | nil => simp [putPool, sum_shielded]
  | cons hd tl ih =>
      cases hd with
      | mk k v =>
        by_cases h : k = key
        · subst h
          simp [putPool, sum_shielded, List.lookup]
          omega
        · have hb : (k == key) = false := by simp at h ⊢; exact h
          have hb2 : (key == k) = false := by
            simp at h ⊢; exact fun hh => h hh.symm
          simp [putPool, hb, hb2, sum_shielded, List.lookup] at ih ⊢
          omega

theorem route_gas_fee_pools (s : ChainState) (fee : Nat) (split : FeeSplit)
    (hsplit : split.l1_gas_burn_pct + split.l1_gas_validators_pct = 100)
    (hdvd : 100 ∣ fee)
    (hfb : fee * split.l1_gas_burn_pct ≤ U128_MAX)
    (hfv : fee * split.l1_gas_validators_pct ≤ U128_MAX)
    (hl : s.fee_pools.l1_gas + fee * split.l1_gas_validators_pct / 100 ≤ U128_MAX)
    (ht : s.fee_pools.treasury + fee * split.l1_gas_burn_pct / 100 ≤ U128_MAX) :
    pools_sum (route_gas_fee s fee split).fee_pools = pools_sum s.fee_pools + fee := by
  obtain ⟨k, rfl⟩ := hdvd
  simp [route_gas_fee, pools_sum, sat_mul, sat_add, min_eq_left, hfb, hfv]
  rw [min_eq_left hl, min_eq_left ht,
    Nat.mul_assoc 100 k split.l1_gas_burn_pct,
    Nat.mul_assoc 100 k split.l1_gas_validators_pct]
  have hBV : k * split.l1_gas_burn_pct + k * split.l1_gas_validators_pct
      = k * 100 := by rw [← Nat.mul_add, hsplit]
  omega

theorem getAccount_address {l : List Account} {addr : Address} :
    ((getAccount l addr).getD (default_account addr)).address = addr := by
  cases hf : getAccount l addr with
  | none => simp [default_account]
  | some a =>
      have := List.find?_some hf
      simp at this
      simp [this]

theorem found_balance_le {s : ChainState} {sa : Account}
    (hfound : (getAccount s.accounts sa.address).elim 0 (fun b => b.balance_x)
      = sa.balance_x) :
    sa.balance_x ≤ sum_balances s.accounts := by
  cases hf : getAccount s.accounts sa.address with
  | none => rw [hf] at hfound; simp at hfound; omega
  | some a =>
      rw [hf] at hfound
      simp at hfound
      rw [← hfound]
      exact balance_le_sum (List.mem_of_find?_eq_some hf)



@[simp] theorem route_accounts (s : ChainState) (f : Nat) (sp : FeeSplit) :
    (route_gas_fee s f sp).accounts = s.accounts := rfl

@[simp] theorem route_validators (s : ChainState) (f : Nat) (sp : FeeSplit) :
    (route_gas_fee s f sp).validators = s.validators := rfl

@[simp] theorem route_delegations (s : ChainState) (f : Nat) (sp : FeeSplit) :
    (route_gas_fee s f sp).delegations = s.delegations := rfl

@[simp] theorem route_privacy_pools (s : ChainState) (f : Nat) (sp : FeeSplit) :
    (route_gas_fee s f sp).privacy_pools = s.privacy_pools := rfl

@[simp] theorem route_total_supply (s : ChainState) (f : Nat) (sp : FeeSplit) :
    (route_gas_fee s f sp).total_supply = s.total_supply := rfl

@[simp] theorem route_last_reward_height (s : ChainState) (f : Nat) (sp : FeeSplit) :
    (route_gas_fee s f sp).last_reward_height = s.last_reward_height := rfl

@[simp] theorem route_pending_unbonds (s : ChainState) (f : Nat) (sp : FeeSplit) :
    (route_gas_fee s f sp).pending_unbonds = s.pending_unbonds := rfl

theorem conserved_sum_parts (s : ChainState) :
    conserved_sum s = sum_balances s.accounts + sum_stakes s.validators +
      (s.fee_pools.l1_gas + s.fee_pools.da + s.fee_pools.sequencer +
       s.fee_pools.treasury) +
      sum_unbonds s.pending_unbonds + sum_shielded s.privacy_pools := rfl

theorem fee_bounds (s : ChainState) (gas_fee pct : Nat)
    (hpct : pct ≤ 100)
    (hfee_sum : gas_fee ≤ conserved_sum s)
    (hscale : 100 * conserved_sum s ≤ U128_MAX) :
    gas_fee * pct ≤ U128_MAX ∧ gas_fee * pct / 100 ≤ gas_fee := by
  have h1 : gas_fee * pct ≤ gas_fee * 100 := Nat.mul_le_mul_left _ hpct
  have h2 : gas_fee * 100 = 100 * gas_fee := by ring
  have h3 : 100 * gas_fee ≤ 100 * conserved_sum s := Nat.mul_le_mul_left _ hfee_sum
  constructor
  · omega
  · omega

theorem transfer_branch_conserves (ctx : Ctx) (s : ChainState)
    (sa : Account) (gas_used gas_fee toA amount : Nat)
    (out : ExecutionOutcome) (s' : ChainState)
    (hsplit : ctx.fee_split.l1_gas_burn_pct + ctx.fee_split.l1_gas_validators_pct = 100)
    (hdvd : 100 ∣ gas_fee)
    (hscale : 100 * conserved_sum s ≤ U128_MAX)
    (hfound : (getAccount s.accounts sa.address).elim 0 (fun b => b.balance_x)
      = sa.balance_x)
    (hok : transfer_branch ctx s sa gas_used gas_fee toA amount = (.ok out, s')) :
    conserved_sum s' = conserved_sum s := by
  have hbal := found_balance_le hfound
  unfold transfer_branch at hok
  split at hok
  · exact absurd (congrArg (fun p => p.1) hok) (by simp)
  next u hef =>
  split at hok
  · exact absurd (congrArg (fun p => p.1) hok) (by simp)
  next nb hsub =>
  simp only [] at hok
  split at hok
  · exact absurd (congrArg (fun p => p.1) hok) (by simp)
  next tb hadd =>
  obtain ⟨hfl, hle⟩ := ensure_funds_ok hef
  obtain ⟨rfl, hsle⟩ := checked_sub_some hsub
  obtain ⟨rfl, hale⟩ := checked_add_some hadd
  simp only [Prod.mk.injEq] at hok
  obtain ⟨-, rfl⟩ := hok
  have A1 := sum_balances_put s.accounts
    { sa with balance_x := sa.balance_x - (amount + gas_fee),
              nonce := wrap64 (sa.nonce + 1) }
  simp only at A1
  rw [hfound] at A1
  set store1 := putAccount s.accounts
    { sa with balance_x := sa.balance_x - (amount + gas_fee),
              nonce := wrap64 (sa.nonce + 1) } with hstore1
  set ta := (getAccount store1 toA).getD (default_account toA) with hta
  have hta_addr : ta.address = toA := getAccount_address
  have hta_found : (getAccount store1 ta.address).elim 0 (fun b => b.balance_x)
      = ta.balance_x := by
    rw [hta_addr]
    cases hf : getAccount store1 toA with
    | none => simp [hta, hf, default_account]
    | some a => simp [hta, hf]
  have A2 := sum_balances_put store1 { ta with balance_x := ta.balance_x + amount }
  simp only at A2
  rw [hta_found] at A2
  -- bounds for the fee-routing lemma
  have hfee_sum : gas_fee ≤ conserved_sum s := by
    rw [conserved_sum_parts]
    omega
  obtain ⟨hfb, hdb⟩ := fee_bounds s gas_fee ctx.fee_split.l1_gas_burn_pct
    (by omega) hfee_sum hscale
  obtain ⟨hfv, hdv⟩ := fee_bounds s gas_fee ctx.fee_split.l1_gas_validators_pct
    (by omega) hfee_sum hscale
  have hMAX : conserved_sum s ≤ U128_MAX := by omega
  rw [conserved_sum_parts] at hMAX hfee_sum
  have P := route_gas_fee_pools s gas_fee ctx.fee_split hsplit hdvd hfb hfv
    (by omega) (by omega)
  simp only [pools_sum] at P
  rw [conserved_sum_parts, conserved_sum_parts]
  simp only [route_accounts, route_validators, route_delegations,
    route_privacy_pools, route_total_supply, route_last_reward_height,
    route_pending_unbonds] at *
  omega



theorem sum_stakes_append (l : List Validator) (v : Validator) :
    sum_stakes (l ++ [v]) = sum_stakes l + v.stake := by
  simp [sum_stakes]

theorem sum_unbonds_append (l : List Unbonding) (u : Unbonding) :
    sum_unbonds (l ++ [u]) = sum_unbonds l + u.amount := by
  simp [sum_unbonds]

theorem stake_le_sum_of_mem {l : List Validator} {v : Validator} (h : v ∈ l) :
    v.stake ≤ sum_stakes l := by
  induction l with
  | nil => simp at h
  | cons hd tl ih =>
      rw [List.mem_cons] at h
      rcases h with rfl | h
      · simp [sum_stakes]
      · have := ih h
        simp [sum_stakes] at this ⊢
        omega

theorem stake_le_sum {l : List Validator} {owner : Address} {v : Validator}
    (hf : findValidatorByOwner l owner = some v) :
    v.stake ≤ sum_stakes l :=
  stake_le_sum_of_mem (List.mem_of_find?_eq_some hf)

theorem stake_branch_conserves (ctx : Ctx) (s : ChainState) (sender : Address)
    (sa : Account) (sig : List Nat) (gas_used gas_fee amount : Nat)
    (out : ExecutionOutcome) (s' : ChainState)
    (hsplit : ctx.fee_split.l1_gas_burn_pct + ctx.fee_split.l1_gas_validators_pct = 100)
    (hdvd : 100 ∣ gas_fee)
    (hscale : 100 * conserved_sum s ≤ U128_MAX)
    (hfound : (getAccount s.accounts sa.address).elim 0 (fun b => b.balance_x)
      = sa.balance_x)
    (hok : stake_branch ctx s sender sa sig gas_used gas_fee amount = (.ok out, s')) :
    conserved_sum s' = conserved_sum s := by
  have hbal := found_balance_le hfound
  unfold stake_branch at hok
  split at hok
  · exact absurd (congrArg (fun p => p.1) hok) (by simp)
  next u hef =>
  split at hok
  · exact absurd (congrArg (fun p => p.1) hok) (by simp)
  next nb hsub =>
  simp only [] at hok
  obtain ⟨hfl, hle⟩ := ensure_funds_ok hef
  obtain ⟨rfl, hsle⟩ := checked_sub_some hsub
  have A1 := sum_balances_put s.accounts
    { sa with balance_x := sa.balance_x - (amount + gas_fee),
              nonce := wrap64 (sa.nonce + 1) }
  simp only at A1
  rw [hfound] at A1
  have hfee_sum : gas_fee ≤ conserved_sum s := by
    rw [conserved_sum_parts]
    omega
  obtain ⟨hfb, hdb⟩ := fee_bounds s gas_fee ctx.fee_split.l1_gas_burn_pct
    (by omega) hfee_sum hscale
  obtain ⟨hfv, hdv⟩ := fee_bounds s gas_fee ctx.fee_split.l1_gas_validators_pct
    (by omega) hfee_sum hscale
  have hMAX : conserved_sum s ≤ U128_MAX := by omega
  rw [conserved_sum_parts] at hMAX hfee_sum
  split at hok
  -- existing validator
  next v hfv' =>
    split at hok
    · exact absurd (congrArg (fun p => p.1) hok) (by simp)
    next ns hadd =>
    obtain ⟨rfl, -⟩ := checked_add_some hadd
    simp only [Prod.mk.injEq] at hok
    obtain ⟨-, rfl⟩ := hok
    have R := sum_stakes_replace s.validators sender v
      { v with stake := v.stake + amount, status := .Active } hfv'
    simp only at R
    have P := route_gas_fee_pools
      { s with
        validators := replaceValidatorByOwner s.validators sender
          { v with stake := v.stake + amount, status := .Active } }
      gas_fee ctx.fee_split hsplit hdvd hfb hfv
      (show s.fee_pools.l1_gas +
        gas_fee * ctx.fee_split.l1_gas_validators_pct / 100 ≤ U128_MAX by omega)
      (show s.fee_pools.treasury +
        gas_fee * ctx.fee_split.l1_gas_burn_pct / 100 ≤ U128_MAX by omega)
    simp only [pools_sum] at P
    rw [conserved_sum_parts, conserved_sum_parts]
    simp only [route_accounts, route_validators, route_delegations,
      route_privacy_pools, route_total_supply, route_last_reward_height,
      route_pending_unbonds] at *
    omega
  -- new validator
  next hnone =>
    simp only [Prod.mk.injEq] at hok
    obtain ⟨-, rfl⟩ := hok
    have R := sum_stakes_append s.validators
      { owner := sender, id := ctx.fresh_validator_id, pubkey := sig,
        stake := amount, status := .Active, commission_rate := 0 }
    simp only at R
    have P := route_gas_fee_pools
      { s with
        validators := s.validators ++
          [{ owner := sender, id := ctx.fresh_validator_id, pubkey := sig,
             stake := amount, status := .Active, commission_rate := 0 }] }
      gas_fee ctx.fee_split hsplit hdvd hfb hfv
      (show s.fee_pools.l1_gas +
        gas_fee * ctx.fee_split.l1_gas_validators_pct / 100 ≤ U128_MAX by omega)
      (show s.fee_pools.treasury +
        gas_fee * ctx.fee_split.l1_gas_burn_pct / 100 ≤ U128_MAX by omega)
    simp only [pools_sum] at P
    rw [conserved_sum_parts, conserved_sum_parts]
    simp only [route_accounts, route_validators, route_delegations,
      route_privacy_pools, route_total_supply, route_last_reward_height,
      route_pending_unbonds] at *
    omega


theorem getAccount_put_ne {l : List Account} {b : Account} {addr : Address}
    (h : b.address ≠ addr) :
    getAccount (putAccount l b) addr = getAccount l addr := by
  induction l with
  | nil =>
      have hb : (b.address == addr) = false := by simp [h]
      simp [putAccount, getAccount, hb]
  | cons a rest ih =>
      by_cases ha : a.address = b.address
      · have hb : (b.address == addr) = false := by simp [h]
        have ha2 : (a.address == addr) = false := by simp [ha]; exact h
        simp [putAccount, getAccount, ha, hb, ha2]
      · have ha2 : (a.address == b.address) = false := by simp [ha]
        simp [putAccount, getAccount, ha2] at ih ⊢
        by_cases hx : a.address = addr
        · simp [hx]
        · have hx2 : (a.address == addr) = false := by simp [hx]
          simp [hx2, ih]

theorem lookup_total_le {l : List (String × PrivacyPool)} {key : String}
    {q : PrivacyPool} (h : l.lookup key = some q) :
    q.total_shielded ≤ sum_shielded l := by
  induction l with
  | nil => simp [List.lookup] at h
  | cons hd tl ih =>
      cases hd with
      | mk k v =>
          rw [List.lookup] at h
          by_cases hk : key = k
          · have : (key == k) = true := by simp [hk]
            rw [this] at h
            simp at h
            subst h
            simp [sum_shielded]
          · have : (key == k) = false := by simp [hk]
            rw [this] at h
            have := ih h
            simp [sum_shielded] at this ⊢
            omega

theorem get_pool_elim (s : ChainState) :
    (s.privacy_pools.lookup "shielded").elim 0 (fun q => q.total_shielded)
      = (get_privacy_pool s).total_shielded := by
  cases h : s.privacy_pools.lookup "shielded" with
  | none => simp [get_privacy_pool, h, PrivacyPool.default]
  | some q => simp [get_privacy_pool, h]

theorem pool_total_le (s : ChainState) :
    (get_privacy_pool s).total_shielded ≤ sum_shielded s.privacy_pools := by
  cases h : s.privacy_pools.lookup "shielded" with
  | none => simp [get_privacy_pool, h, PrivacyPool.default]
  | some q =>
      have := lookup_total_le h
      simpa [get_privacy_pool, h] using this

@[simp] theorem set_pool_accounts (s : ChainState) (p : PrivacyPool) :
    (set_privacy_pool s p).accounts = s.accounts := rfl

@[simp] theorem set_pool_validators (s : ChainState) (p : PrivacyPool) :
    (set_privacy_pool s p).validators = s.validators := rfl

@[simp] theorem set_pool_delegations (s : ChainState) (p : PrivacyPool) :
    (set_privacy_pool s p).delegations = s.delegations := rfl

@[simp] theorem set_pool_fee_pools (s : ChainState) (p : PrivacyPool) :
    (set_privacy_pool s p).fee_pools = s.fee_pools := rfl

@[simp] theorem set_pool_total_supply (s : ChainState) (p : PrivacyPool) :
    (set_privacy_pool s p).total_supply = s.total_supply := rfl

@[simp] theorem set_pool_last_reward_height (s : ChainState) (p : PrivacyPool) :
    (set_privacy_pool s p).last_reward_height = s.last_reward_height := rfl

@[simp] theorem set_pool_pending_unbonds (s : ChainState) (p : PrivacyPool) :
    (set_privacy_pool s p).pending_unbonds = s.pending_unbonds := rfl

theorem set_pool_privacy_pools (s : ChainState) (p : PrivacyPool) :
    (set_privacy_pool s p).privacy_pools = putPool s.privacy_pools "shielded" p := rfl

theorem unstake_branch_conserves (ctx : Ctx) (s : ChainState) (sender : Address)
    (sa : Account) (gas_used gas_fee amount curh : Nat)
    (out : ExecutionOutcome) (s' : ChainState)
    (hsplit : ctx.fee_split.l1_gas_burn_pct + ctx.fee_split.l1_gas_validators_pct = 100)
    (hdvd : 100 ∣ gas_fee)
    (hscale : 100 * conserved_sum s ≤ U128_MAX)
    (hfound : (getAccount s.accounts sa.address).elim 0 (fun b => b.balance_x)
      = sa.balance_x)
    (hok : unstake_branch ctx s sender sa gas_used gas_fee amount curh = (.ok out, s')) :
    conserved_sum s' = conserved_sum s := by
  have hbal := found_balance_le hfound
  unfold unstake_branch at hok
  split at hok
  · exact absurd (congrArg (fun p => p.1) hok) (by simp)
  next hgas =>
  split at hok
  · exact absurd (congrArg (fun p => p.1) hok) (by simp)
  next v hfv' =>
  split at hok
  · exact absurd (congrArg (fun p => p.1) hok) (by simp)
  next hstk =>
  simp only [] at hok
  split at hok
  · exact absurd (congrArg (fun p => p.1) hok) (by simp)
  next nb hsub =>
  obtain ⟨rfl, hsle⟩ := checked_sub_some hsub
  simp only [Prod.mk.injEq] at hok
  obtain ⟨-, rfl⟩ := hok
  have A1 := sum_balances_put s.accounts
    { sa with balance_x := sa.balance_x - gas_fee,
              nonce := wrap64 (sa.nonce + 1) }
  simp only at A1
  rw [hfound] at A1
  have hstake := stake_le_sum hfv'
  have R := sum_stakes_replace s.validators sender v
    { v with stake := sat_sub v.stake amount,
             status := if sat_sub v.stake amount == 0 then .Exited else v.status }
    hfv'
  simp only at R
  have hss : sat_sub v.stake amount = v.stake - amount := rfl
  have U := sum_unbonds_append s.pending_unbonds
    { owner := sender, validator_id := some v.id, amount := amount,
      release_height := sat_add64 curh ctx.unbonding_delay_blocks }
  simp only at U
  have hfee_sum : gas_fee ≤ conserved_sum s := by
    rw [conserved_sum_parts]
    omega
  obtain ⟨hfb, hdb⟩ := fee_bounds s gas_fee ctx.fee_split.l1_gas_burn_pct
    (by omega) hfee_sum hscale
  obtain ⟨hfv2, hdv⟩ := fee_bounds s gas_fee ctx.fee_split.l1_gas_validators_pct
    (by omega) hfee_sum hscale
  have hMAX : conserved_sum s ≤ U128_MAX := by omega
  rw [conserved_sum_parts] at hMAX hfee_sum
  have P := route_gas_fee_pools
    { s with
      validators := replaceValidatorByOwner s.validators sender
        { v with stake := sat_sub v.stake amount,
                 status := if sat_sub v.stake amount == 0 then .Exited else v.status },
      pending_unbonds := s.pending_unbonds ++
        [{ owner := sender, validator_id := some v.id, amount := amount,
           release_height := sat_add64 curh ctx.unbonding_delay_blocks }] }
    gas_fee ctx.fee_split hsplit hdvd hfb hfv2
    (show s.fee_pools.l1_gas +
      gas_fee * ctx.fee_split.l1_gas_validators_pct / 100 ≤ U128_MAX by omega)
    (show s.fee_pools.treasury +
      gas_fee * ctx.fee_split.l1_gas_burn_pct / 100 ≤ U128_MAX by omega)
  simp only [pools_sum] at P
  rw [conserved_sum_parts, conserved_sum_parts]
  simp only [route_accounts, route_validators, route_delegations,
    route_privacy_pools, route_total_supply, route_last_reward_height,
    route_pending_unbonds] at *
  omega

theorem delegate_branch_conserves (ctx : Ctx) (s : ChainState) (sender : Address)
    (sa : Account) (gas_used gas_fee validator amount : Nat)
    (out : ExecutionOutcome) (s' : ChainState)
    (hsplit : ctx.fee_split.l1_gas_burn_pct + ctx.fee_split.l1_gas_validators_pct = 100)
    (hdvd : 100 ∣ gas_fee)
    (hscale : 100 * conserved_sum s ≤ U128_MAX)
    (hfound : (getAccount s.accounts sa.address).elim 0 (fun b => b.balance_x)
      = sa.balance_x)
    (hok : delegate_branch ctx s sender sa gas_used gas_fee validator amount
      = (.ok out, s')) :
    conserved_sum s' = conserved_sum s := by
  have hbal := found_balance_le hfound
  unfold delegate_branch at hok
  split at hok
  · exact absurd (congrArg (fun p => p.1) hok) (by simp)
  next u hef =>
  split at hok
  · exact absurd (congrArg (fun p => p.1) hok) (by simp)
  next v hfv' =>
  split at hok
  · exact absurd (congrArg (fun p => p.1) hok) (by simp)
  next ns hadd =>
  simp only [] at hok
  split at hok
  · exact absurd (congrArg (fun p => p.1) hok) (by simp)
  next nb hsub =>
  obtain ⟨hfl, hle⟩ := ensure_funds_ok hef
  obtain ⟨rfl, -⟩ := checked_add_some hadd
  obtain ⟨rfl, hsle⟩ := checked_sub_some hsub
  simp only [Prod.mk.injEq] at hok
  obtain ⟨-, rfl⟩ := hok
  have A1 := sum_balances_put s.accounts
    { sa with balance_x := sa.balance_x - (amount + gas_fee),
              nonce := wrap64 (sa.nonce + 1) }
  simp only at A1
  rw [hfound] at A1
  have R := sum_stakes_replace s.validators validator v
    { v with stake := v.stake + amount } hfv'
  simp only at R
  have hfee_sum : gas_fee ≤ conserved_sum s := by
    rw [conserved_sum_parts]
    omega
  obtain ⟨hfb, hdb⟩ := fee_bounds s gas_fee ctx.fee_split.l1_gas_burn_pct
    (by omega) hfee_sum hscale
  obtain ⟨hfv2, hdv⟩ := fee_bounds s gas_fee ctx.fee_split.l1_gas_validators_pct
    (by omega) hfee_sum hscale
  have hMAX : conserved_sum s ≤ U128_MAX := by omega
  rw [conserved_sum_parts] at hMAX hfee_sum
  have P := route_gas_fee_pools
    { s with
      validators := replaceValidatorByOwner s.validators validator
        { v with stake := v.stake + amount },
      delegations := s.delegations ++
        [{ delegator := sender, validator_id := v.id, stake := amount }] }
    gas_fee ctx.fee_split hsplit hdvd hfb hfv2
    (show s.fee_pools.l1_gas +
      gas_fee * ctx.fee_split.l1_gas_validators_pct / 100 ≤ U128_MAX by omega)
    (show s.fee_pools.treasury +
      gas_fee * ctx.fee_split.l1_gas_burn_pct / 100 ≤ U128_MAX by omega)
  simp only [pools_sum] at P
  rw [conserved_sum_parts, conserved_sum_parts]
  simp only [route_accounts, route_validators, route_delegations,
    route_privacy_pools, route_total_supply, route_last_reward_height,
    route_pending_unbonds] at *
  omega



theorem undelegate_branch_conserves (ctx : Ctx) (s : ChainState) (sender : Address)
    (sa : Account) (gas_used gas_fee validator amount curh : Nat)
    (out : ExecutionOutcome) (s' : ChainState)
    (hsplit : ctx.fee_split.l1_gas_burn_pct + ctx.fee_split.l1_gas_validators_pct = 100)
    (hdvd : 100 ∣ gas_fee)
    (hscale : 100 * conserved_sum s ≤ U128_MAX)
    (hfound : (getAccount s.accounts sa.address).elim 0 (fun b => b.balance_x)
      = sa.balance_x)
    (hcov : ∀ v, findValidatorByOwner s.validators validator = some v → amount ≤ v.stake)
    (hok : undelegate_branch ctx s sender sa gas_used gas_fee validator amount curh
      = (.ok out, s')) :
    conserved_sum s' = conserved_sum s := by
  have hbal := found_balance_le hfound
  unfold undelegate_branch at hok
  split at hok
  · exact absurd (congrArg (fun p => p.1) hok) (by simp)
  next v hfv' =>
  split at hok
  · exact absurd (congrArg (fun p => p.1) hok) (by simp)
  next d hfd =>
  split at hok
  · exact absurd (congrArg (fun p => p.1) hok) (by simp)
  next hdstk =>
  simp only [] at hok
  split at hok
  · exact absurd (congrArg (fun p => p.1) hok) (by simp)
  next nb hsub =>
  obtain ⟨rfl, hsle⟩ := checked_sub_some hsub
  simp only [Prod.mk.injEq] at hok
  obtain ⟨-, rfl⟩ := hok
  have hvge := hcov v hfv'
  have A1 := sum_balances_put s.accounts
    { sa with balance_x := sa.balance_x - gas_fee,
              nonce := wrap64 (sa.nonce + 1) }
  simp only at A1
  rw [hfound] at A1
  have hstake := stake_le_sum hfv'
  have R := sum_stakes_replace s.validators validator v
    { v with stake := sat_sub v.stake amount } hfv'
  simp only at R
  have hss : sat_sub v.stake amount = v.stake - amount := rfl
  have U := sum_unbonds_append s.pending_unbonds
    { owner := sender, validator_id := some v.id, amount := amount,
      release_height := sat_add64 curh ctx.unbonding_delay_blocks }
  simp only at U
  have hfee_sum : gas_fee ≤ conserved_sum s := by
    rw [conserved_sum_parts]
    omega
  obtain ⟨hfb, hdb⟩ := fee_bounds s gas_fee ctx.fee_split.l1_gas_burn_pct
    (by omega) hfee_sum hscale
  obtain ⟨hfv2, hdv⟩ := fee_bounds s gas_fee ctx.fee_split.l1_gas_validators_pct
    (by omega) hfee_sum hscale
  have hMAX : conserved_sum s ≤ U128_MAX := by omega
  rw [conserved_sum_parts] at hMAX hfee_sum
  have P := route_gas_fee_pools
    { s with
      validators := replaceValidatorByOwner s.validators validator
        { v with stake := sat_sub v.stake amount },
      delegations := (replaceFirstDelegation s.delegations sender v.id
        { d with stake := d.stake - amount }).filter
          (fun e => decide (e.stake > 0)),
      pending_unbonds := s.pending_unbonds ++
        [{ owner := sender, validator_id := some v.id, amount := amount,
           release_height := sat_add64 curh ctx.unbonding_delay_blocks }] }
    gas_fee ctx.fee_split hsplit hdvd hfb hfv2
    (show s.fee_pools.l1_gas +
      gas_fee * ctx.fee_split.l1_gas_validators_pct / 100 ≤ U128_MAX by omega)
    (show s.fee_pools.treasury +
      gas_fee * ctx.fee_split.l1_gas_burn_pct / 100 ≤ U128_MAX by omega)
  simp only [pools_sum] at P
  rw [conserved_sum_parts, conserved_sum_parts]
  simp only [route_accounts, route_validators, route_delegations,
    route_privacy_pools, route_total_supply, route_last_reward_height,
    route_pending_unbonds] at *
  omega

theorem bridge_deposit_branch_conserves (ctx : Ctx) (s : ChainState)
    (sa : Account) (gas_used gas_fee amount : Nat)
    (out : ExecutionOutcome) (s' : ChainState)
    (hsplit : ctx.fee_split.l1_gas_burn_pct + ctx.fee_split.l1_gas_validators_pct = 100)
    (hdvd : 100 ∣ gas_fee)
    (hscale : 100 * conserved_sum s ≤ U128_MAX)
    (hfound : (getAccount s.accounts sa.address).elim 0 (fun b => b.balance_x)
      = sa.balance_x)
    (hok : bridge_deposit_branch ctx s sa gas_used gas_fee amount = (.ok out, s')) :
    conserved_sum s' = conserved_sum s := by
  have hbal := found_balance_le hfound
  unfold bridge_deposit_branch at hok
  split at hok
  · exact absurd (congrArg (fun p => p.1) hok) (by simp)
  next u hef =>
  split at hok
  · exact absurd (congrArg (fun p => p.1) hok) (by simp)
  next nb hsub =>
  obtain ⟨hfl, hle⟩ := ensure_funds_ok hef
  obtain ⟨rfl, hsle⟩ := checked_sub_some hsub
  simp only [Prod.mk.injEq] at hok
  obtain ⟨-, rfl⟩ := hok
  have A1 := sum_balances_put s.accounts
    { sa with balance_x := sa.balance_x - (amount + gas_fee),
              nonce := wrap64 (sa.nonce + 1) }
  simp only at A1
  rw [hfound] at A1
  have hfee_sum : gas_fee ≤ conserved_sum s := by
    rw [conserved_sum_parts]
    omega
  obtain ⟨hfb, hdb⟩ := fee_bounds s gas_fee ctx.fee_split.l1_gas_burn_pct
    (by omega) hfee_sum hscale
  obtain ⟨hfv2, hdv⟩ := fee_bounds s gas_fee ctx.fee_split.l1_gas_validators_pct
    (by omega) hfee_sum hscale
  have hMAX : conserved_sum s ≤ U128_MAX := by omega
  rw [conserved_sum_parts] at hMAX hfee_sum
  have hT : sat_add s.fee_pools.treasury amount
      = s.fee_pools.treasury + amount := by
    rw [sat_add, Nat.min_def]
    split <;> omega
  have P := route_gas_fee_pools
    { s with fee_pools :=
        { s.fee_pools with
          treasury := sat_add s.fee_pools.treasury amount } }
    gas_fee ctx.fee_split hsplit hdvd hfb hfv2
    (show s.fee_pools.l1_gas +
      gas_fee * ctx.fee_split.l1_gas_validators_pct / 100 ≤ U128_MAX by omega)
    (show sat_add s.fee_pools.treasury amount +
      gas_fee * ctx.fee_split.l1_gas_burn_pct / 100 ≤ U128_MAX by rw [hT]; omega)
  simp only [pools_sum] at P
  rw [conserved_sum_parts, conserved_sum_parts]
  simp only [route_accounts, route_validators, route_delegations,
    route_privacy_pools, route_total_supply, route_last_reward_height,
    route_pending_unbonds] at *
  omega

theorem slash_branch_conserves (ctx : Ctx) (s : ChainState)
    (sa : Account) (gas_used gas_fee validator penalty_bps : Nat)
    (out : ExecutionOutcome) (s' : ChainState)
    (hsplit : ctx.fee_split.l1_gas_burn_pct + ctx.fee_split.l1_gas_validators_pct = 100)
    (hdvd : 100 ∣ gas_fee)
    (hscale : 100 * conserved_sum s ≤ U128_MAX)
    (hfound : (getAccount s.accounts sa.address).elim 0 (fun b => b.balance_x)
      = sa.balance_x)
    (hok : slash_branch ctx s sa gas_used gas_fee validator penalty_bps
      = (.ok out, s')) :
    conserved_sum s' = conserved_sum s := by
  have hbal := found_balance_le hfound
  unfold slash_branch at hok
  cases hfv' : findValidatorByOwner s.validators validator with
  | none =>
      rw [hfv'] at hok
      exact absurd (congrArg (fun p => p.1) hok) (by simp)
  | some v =>
  rw [hfv'] at hok
  simp only [] at hok
  generalize heb : (if penalty_bps == 0 then ctx.slash_penalty_bps
      else penalty_bps) = bps0 at hok
  generalize hmin : min bps0 10000 = eff at hok
  generalize hdel : (if s.delegations.isEmpty then s.delegations
      else (s.delegations.map (fun d =>
          if d.validator_id == v.id then
            { d with
              stake := sat_sub d.stake
                (sat_mul (sat_mul v.stake eff / 10000) d.stake / v.stake) }
          else d)).filter (fun d => decide (d.stake > 0))) = dels at hok
  generalize hvst : (if sat_sub v.stake (sat_mul v.stake eff / 10000) == 0
      then ValidatorStatus.Jailed else v.status) = st' at hok
  split at hok
  · exact absurd (congrArg (fun p => p.1) hok) (by simp)
  next hstk0 =>
  split at hok
  · exact absurd (congrArg (fun p => p.1) hok) (by simp)
  next hpen0 =>
  split at hok
  · exact absurd (congrArg (fun p => p.1) hok) (by simp)
  next nb hsub =>
  obtain ⟨rfl, hsle⟩ := checked_sub_some hsub
  simp only [Prod.mk.injEq] at hok
  obtain ⟨-, rfl⟩ := hok
  set pen := sat_mul v.stake eff / 10000 with hpdef
  have hstake := stake_le_sum hfv'
  have heff : eff ≤ 10000 := by rw [← hmin]; exact min_le_right _ _
  have hm : v.stake * eff ≤ v.stake * 10000 := Nat.mul_le_mul_left _ heff
  have hpen_le : pen ≤ v.stake := by
    rw [hpdef, sat_mul, Nat.min_def]
    split <;> omega
  have A1 := sum_balances_put s.accounts
    { sa with balance_x := sa.balance_x - gas_fee,
              nonce := wrap64 (sa.nonce + 1) }
  simp only at A1
  rw [hfound] at A1
  have R := sum_stakes_replace s.validators validator v
    { v with stake := sat_sub v.stake pen, status := st' } hfv'
  simp only at R
  have hss : sat_sub v.stake pen = v.stake - pen := rfl
  have hfee_sum : gas_fee ≤ conserved_sum s := by
    rw [conserved_sum_parts]
    omega
  obtain ⟨hfb, hdb⟩ := fee_bounds s gas_fee ctx.fee_split.l1_gas_burn_pct
    (by omega) hfee_sum hscale
  obtain ⟨hfv2, hdv⟩ := fee_bounds s gas_fee ctx.fee_split.l1_gas_validators_pct
    (by omega) hfee_sum hscale
  have hMAX : conserved_sum s ≤ U128_MAX := by omega
  rw [conserved_sum_parts] at hMAX hfee_sum
  have hT : sat_add s.fee_pools.treasury pen = s.fee_pools.treasury + pen := by
    rw [sat_add, Nat.min_def]
    split <;> omega
  have P := route_gas_fee_pools
    { s with
      validators := replaceValidatorByOwner s.validators validator
        { v with stake := sat_sub v.stake pen, status := st' },
      delegations := dels,
      fee_pools := { s.fee_pools with
                     treasury := sat_add s.fee_pools.treasury pen } }
    gas_fee ctx.fee_split hsplit hdvd hfb hfv2
    (show s.fee_pools.l1_gas +
      gas_fee * ctx.fee_split.l1_gas_validators_pct / 100 ≤ U128_MAX by omega)
    (show sat_add s.fee_pools.treasury pen +
      gas_fee * ctx.fee_split.l1_gas_burn_pct / 100 ≤ U128_MAX by rw [hT]; omega)
  simp only [pools_sum] at P
  rw [conserved_sum_parts, conserved_sum_parts]
  simp only [route_accounts, route_validators, route_delegations,
    route_privacy_pools, route_total_supply, route_last_reward_height,
    route_pending_unbonds] at *
  omega

theorem privacy_deposit_branch_conserves (ctx : Ctx) (s : ChainState)
    (sa : Account) (gas_used gas_fee commitment amount : Nat)
    (out : ExecutionOutcome) (s' : ChainState)
    (hsplit : ctx.fee_split.l1_gas_burn_pct + ctx.fee_split.l1_gas_validators_pct = 100)
    (hdvd : 100 ∣ gas_fee)
    (hscale : 100 * conserved_sum s ≤ U128_MAX)
    (hfound : (getAccount s.accounts sa.address).elim 0 (fun b => b.balance_x)
      = sa.balance_x)
    (hok : privacy_deposit_branch ctx s sa gas_used gas_fee commitment amount
      = (.ok out, s')) :
    conserved_sum s' = conserved_sum s := by
  have hbal := found_balance_le hfound
  unfold privacy_deposit_branch at hok
  split at hok
  · exact absurd (congrArg (fun p => p.1) hok) (by simp)
  next u0 hpos =>
  split at hok
  · exact absurd (congrArg (fun p => p.1) hok) (by simp)
  next u hef =>
  simp only [] at hok
  split at hok
  · exact absurd (congrArg (fun p => p.1) hok) (by simp)
  next hcomm =>
  split at hok
  · exact absurd (congrArg (fun p => p.1) hok) (by simp)
  next ts hadd =>
  split at hok
  · exact absurd (congrArg (fun p => p.1) hok) (by simp)
  next nb hsub =>
  obtain ⟨hfl, hle⟩ := ensure_funds_ok hef
  obtain ⟨rfl, hale⟩ := checked_add_some hadd
  obtain ⟨rfl, hsle⟩ := checked_sub_some hsub
  simp only [Prod.mk.injEq] at hok
  obtain ⟨-, rfl⟩ := hok
  have A1 := sum_balances_put s.accounts
    { sa with balance_x := sa.balance_x - (amount + gas_fee),
              nonce := wrap64 (sa.nonce + 1) }
  simp only at A1
  rw [hfound] at A1
  have SH := sum_shielded_putPool s.privacy_pools "shielded"
    { get_privacy_pool s with
      commitments := (get_privacy_pool s).commitments ++ [commitment],
      total_shielded := (get_privacy_pool s).total_shielded + amount,
      merkle_root := compute_merkle_root ctx
        ((get_privacy_pool s).commitments ++ [commitment]) }
  simp only at SH
  rw [get_pool_elim] at SH
  have hfee_sum : gas_fee ≤ conserved_sum s := by
    rw [conserved_sum_parts]
    omega
  obtain ⟨hfb, hdb⟩ := fee_bounds s gas_fee ctx.fee_split.l1_gas_burn_pct
    (by omega) hfee_sum hscale
  obtain ⟨hfv2, hdv⟩ := fee_bounds s gas_fee ctx.fee_split.l1_gas_validators_pct
    (by omega) hfee_sum hscale
  have hMAX : conserved_sum s ≤ U128_MAX := by omega
  rw [conserved_sum_parts] at hMAX hfee_sum
  have P := route_gas_fee_pools
    (set_privacy_pool s
      { get_privacy_pool s with
        commitments := (get_privacy_pool s).commitments ++ [commitment],
        total_shielded := (get_privacy_pool s).total_shielded + amount,
        merkle_root := compute_merkle_root ctx
          ((get_privacy_pool s).commitments ++ [commitment]) })
    gas_fee ctx.fee_split hsplit hdvd hfb hfv2
    (show s.fee_pools.l1_gas +
      gas_fee * ctx.fee_split.l1_gas_validators_pct / 100 ≤ U128_MAX by omega)
    (show s.fee_pools.treasury +
      gas_fee * ctx.fee_split.l1_gas_burn_pct / 100 ≤ U128_MAX by omega)
  simp only [pools_sum, set_pool_fee_pools] at P
  rw [conserved_sum_parts, conserved_sum_parts]
  simp only [route_accounts, route_validators, route_delegations,
    route_privacy_pools, route_total_supply, route_last_reward_height,
    route_pending_unbonds, set_pool_accounts, set_pool_validators,
    set_pool_delegations, set_pool_total_supply,
    set_pool_last_reward_height, set_pool_pending_unbonds,
    set_pool_privacy_pools] at *
  omega

theorem privacy_withdraw_branch_conserves (ctx : Ctx) (s : ChainState)
    (sa : Account) (gas_used gas_fee : Nat)
    (nullifier recipient amount merkle_root commitment : Nat)
    (proof : ProofArtifact) (out : ExecutionOutcome) (s' : ChainState)
    (hsplit : ctx.fee_split.l1_gas_burn_pct + ctx.fee_split.l1_gas_validators_pct = 100)
    (hdvd : 100 ∣ gas_fee)
    (hscale : 100 * conserved_sum s ≤ U128_MAX)
    (hfound : (getAccount s.accounts sa.address).elim 0 (fun b => b.balance_x)
      = sa.balance_x)
    (hnr : recipient ≠ sa.address)
    (hok : privacy_withdraw_branch ctx s sa gas_used gas_fee nullifier recipient
      amount merkle_root commitment proof = (.ok out, s')) :
    conserved_sum s' = conserved_sum s := by
  have hbal := found_balance_le hfound
  unfold privacy_withdraw_branch at hok
  split at hok
  · exact absurd (congrArg (fun p => p.1) hok) (by simp)
  next u0 hpos =>
  simp only [] at hok
  split at hok
  · exact absurd (congrArg (fun p => p.1) hok) (by simp)
  next hnul =>
  split at hok
  · exact absurd (congrArg (fun p => p.1) hok) (by simp)
  next hroot =>
  split at hok
  · exact absurd (congrArg (fun p => p.1) hok) (by simp)
  next hcomm =>
  split at hok
  · exact absurd (congrArg (fun p => p.1) hok) (by simp)
  next htot =>
  split at hok
  · exact absurd (congrArg (fun p => p.1) hok) (by simp)
  next hzk =>
  split at hok
  · exact absurd (congrArg (fun p => p.1) hok) (by simp)
  next tb hadd =>
  split at hok
  · exact absurd (congrArg (fun p => p.1) hok) (by simp)
  next nb hsub =>
  obtain ⟨rfl, hale⟩ := checked_add_some hadd
  obtain ⟨rfl, hsle⟩ := checked_sub_some hsub
  simp only [Prod.mk.injEq] at hok
  obtain ⟨-, rfl⟩ := hok
  set ta := (getAccount s.accounts recipient).getD (default_account recipient)
    with hta
  have hta_addr : ta.address = recipient := getAccount_address
  have hta_found : (getAccount s.accounts ta.address).elim 0 (fun b => b.balance_x)
      = ta.balance_x := by
    rw [hta_addr]
    cases hf : getAccount s.accounts recipient with
    | none => simp [hta, hf, default_account]
    | some a => simp [hta, hf]
  have A_to := sum_balances_put s.accounts
    { ta with balance_x := ta.balance_x + amount }
  simp only at A_to
  rw [hta_found] at A_to
  set store1 := putAccount s.accounts { ta with balance_x := ta.balance_x + amount }
    with hstore1
  have hga : getAccount store1 sa.address = getAccount s.accounts sa.address := by
    rw [hstore1]
    exact getAccount_put_ne (by simpa [hta_addr] using hnr)
  have A_snd := sum_balances_put store1
    { sa with balance_x := sa.balance_x - gas_fee,
              nonce := wrap64 (sa.nonce + 1) }
  simp only at A_snd
  rw [hga, hfound] at A_snd
  have SH := sum_shielded_putPool s.privacy_pools "shielded"
    { get_privacy_pool s with
      nullifiers := (get_privacy_pool s).nullifiers ++ [nullifier],
      total_shielded := sat_sub (get_privacy_pool s).total_shielded amount }
  simp only at SH
  rw [get_pool_elim] at SH
  have hshsub : sat_sub (get_privacy_pool s).total_shielded amount
      = (get_privacy_pool s).total_shielded - amount := rfl
  have hpool_le := pool_total_le s
  have hfee_sum : gas_fee ≤ conserved_sum s := by
    rw [conserved_sum_parts]
    omega
  obtain ⟨hfb, hdb⟩ := fee_bounds s gas_fee ctx.fee_split.l1_gas_burn_pct
    (by omega) hfee_sum hscale
  obtain ⟨hfv2, hdv⟩ := fee_bounds s gas_fee ctx.fee_split.l1_gas_validators_pct
    (by omega) hfee_sum hscale
  have hMAX : conserved_sum s ≤ U128_MAX := by omega
  rw [conserved_sum_parts] at hMAX hfee_sum
  have P := route_gas_fee_pools
    (set_privacy_pool s
      { get_privacy_pool s with
        nullifiers := (get_privacy_pool s).nullifiers ++ [nullifier],
        total_shielded := sat_sub (get_privacy_pool s).total_shielded amount })
    gas_fee ctx.fee_split hsplit hdvd hfb hfv2
    (show s.fee_pools.l1_gas +
      gas_fee * ctx.fee_split.l1_gas_validators_pct / 100 ≤ U128_MAX by omega)
    (show s.fee_pools.treasury +
      gas_fee * ctx.fee_split.l1_gas_burn_pct / 100 ≤ U128_MAX by omega)
  simp only [pools_sum, set_pool_fee_pools] at P
  rw [conserved_sum_parts, conserved_sum_parts]
  simp only [route_accounts, route_validators, route_delegations,
    route_privacy_pools, route_total_supply, route_last_reward_height,
    route_pending_unbonds, set_pool_accounts, set_pool_validators,
    set_pool_delegations, set_pool_total_supply,
    set_pool_last_reward_height, set_pool_pending_unbonds,
    set_pool_privacy_pools] at *
  omega

theorem transfer_branch_supply (ctx : Ctx) (s : ChainState) (sa : Account)
    (gu gf toA amount : Nat) :
    (transfer_branch ctx s sa gu gf toA amount).2.total_supply = s.total_supply := by
  unfold transfer_branch
  repeat' (first | rfl | split | simp only [])

theorem stake_branch_supply (ctx : Ctx) (s : ChainState) (sender : Address)
    (sa : Account) (sig : List Nat) (gu gf amount : Nat) :
    (stake_branch ctx s sender sa sig gu gf amount).2.total_supply
      = s.total_supply := by
  unfold stake_branch
  repeat' (first | rfl | split | simp only [])

theorem unstake_branch_supply (ctx : Ctx) (s : ChainState) (sender : Address)
    (sa : Account) (gu gf amount curh : Nat) :
    (unstake_branch ctx s sender sa gu gf amount curh).2.total_supply
      = s.total_supply := by
  unfold unstake_branch
  repeat' (first | rfl | split | simp only [])

theorem delegate_branch_supply (ctx : Ctx) (s : ChainState) (sender : Address)
    (sa : Account) (gu gf validator amount : Nat) :
    (delegate_branch ctx s sender sa gu gf validator amount).2.total_supply
      = s.total_supply := by
  unfold delegate_branch
  repeat' (first | rfl | split | simp only [])

theorem undelegate_branch_supply (ctx : Ctx) (s : ChainState) (sender : Address)
    (sa : Account) (gu gf validator amount curh : Nat) :
    (undelegate_branch ctx s sender sa gu gf validator amount curh).2.total_supply
      = s.total_supply := by
  unfold undelegate_branch
  repeat' (first | rfl | split | simp only [])

theorem slash_branch_supply (ctx : Ctx) (s : ChainState) (sa : Account)
    (gu gf validator penalty_bps : Nat) :
    (slash_branch ctx s sa gu gf validator penalty_bps).2.total_supply
      = s.total_supply := by
  unfold slash_branch
  repeat' (first | rfl | split | simp only [])

theorem privacy_deposit_branch_supply (ctx : Ctx) (s : ChainState) (sa : Account)
    (gu gf commitment amount : Nat) :
    (privacy_deposit_branch ctx s sa gu gf commitment amount).2.total_supply
      = s.total_supply := by
  unfold privacy_deposit_branch
  repeat' (first | rfl | split | simp only [])

theorem privacy_withdraw_branch_supply (ctx : Ctx) (s : ChainState) (sa : Account)
    (gu gf n r amount mr c : Nat) (proof : ProofArtifact) :
    (privacy_withdraw_branch ctx s sa gu gf n r amount mr c proof).2.total_supply
      = s.total_supply := by
  unfold privacy_withdraw_branch
  repeat' (first | rfl | split | simp only [])

theorem bridge_deposit_branch_supply (ctx : Ctx) (s : ChainState) (sa : Account)
    (gu gf amount : Nat) :
    (bridge_deposit_branch ctx s sa gu gf amount).2.total_supply
      = s.total_supply := by
  unfold bridge_deposit_branch
  repeat' (first | rfl | split | simp only [])

theorem bridge_withdraw_branch_supply (ctx : Ctx) (s : ChainState) (sa : Account)
    (gu gf amount : Nat) :
    (bridge_withdraw_branch ctx s sa gu gf amount).2.total_supply
      = s.total_supply := by
  unfold bridge_withdraw_branch
  repeat' (first | rfl | split | simp only [])

set_option maxHeartbeats 1000000 in
theorem apply_tx_supply (ctx : Ctx) (s : ChainState) (sender : Address) (tx : Tx)
    (curh : Nat) :
    (apply_tx ctx s sender tx curh).2.total_supply = s.total_supply := by
  unfold apply_tx apply_branch
  repeat' (first | rfl | split | simp only [])
  all_goals first
    | apply transfer_branch_supply
    | apply stake_branch_supply
    | apply unstake_branch_supply
    | apply delegate_branch_supply
    | apply undelegate_branch_supply
    | apply slash_branch_supply
    | apply privacy_deposit_branch_supply
    | apply privacy_withdraw_branch_supply
    | apply bridge_deposit_branch_supply
    | apply bridge_withdraw_branch_supply

theorem gas_cost_dvd (p : TxPayload) : 100 ∣ gas_cost p := by
  cases p <;> (simp only [gas_cost]; decide)

theorem apply_tx_ok_inv {ctx : Ctx} {s : ChainState} {sender : Address}
    {tx : Tx} {curh : Nat} {out : ExecutionOutcome} {s' : ChainState}
    (hok : apply_tx ctx s sender tx curh = (.ok out, s')) :
    ∃ gp, effective_gas_price tx ctx.base_fee = .ok gp ∧
      gas_cost tx.payload * gp ≤ U128_MAX ∧
      apply_branch ctx s sender tx
        ((getAccount s.accounts sender).getD (default_account sender))
        (gas_cost tx.payload) (gas_cost tx.payload * gp) curh
        = (.ok out, s') := by
  unfold apply_tx at hok
  split at hok
  · exact absurd (congrArg (fun p => p.1) hok) (by simp)
  simp only [] at hok
  split at hok
  · exact absurd (congrArg (fun p => p.1) hok) (by simp)
  split at hok
  · exact absurd (congrArg (fun p => p.1) hok) (by simp)
  next gp hgp =>
  split at hok
  · exact absurd (congrArg (fun p => p.1) hok) (by simp)
  next gf hgf =>
  obtain ⟨rfl, hle⟩ := checked_mul_some hgf
  exact ⟨gp, hgp, hle, hok⟩

theorem getD_found (l : List Account) (addr : Address) :
    (getAccount l
        (((getAccount l addr).getD (default_account addr)).address)).elim 0
        (fun b => b.balance_x)
      = ((getAccount l addr).getD (default_account addr)).balance_x := by
  rw [getAccount_address]
  cases hf : getAccount l addr with
  | none => simp [hf, default_account]
  | some a => simp [hf]

theorem apply_tx_conserves (ctx : Ctx) (s : ChainState) (sender : Address)
    (tx : Tx) (curh : Nat) (out : ExecutionOutcome) (s' : ChainState)
    (hok : apply_tx ctx s sender tx curh = (.ok out, s'))
    (hc : conservative s sender tx.payload)
    (hsplit : ctx.fee_split.l1_gas_burn_pct + ctx.fee_split.l1_gas_validators_pct = 100)
    (hscale : 100 * conserved_sum s ≤ U128_MAX) :
    conserved_sum s' = conserved_sum s := by
  obtain ⟨gp, hgp, hle, hb⟩ := apply_tx_ok_inv hok
  have hdvd : 100 ∣ gas_cost tx.payload * gp :=
    Dvd.dvd.mul_right (gas_cost_dvd tx.payload) gp
  have hfound := getD_found s.accounts sender
  have haddr : ((getAccount s.accounts sender).getD (default_account sender)).address
      = sender := getAccount_address
  cases hpay : tx.payload with
  | Transfer toA amount =>
      rw [hpay] at hb
      simp only [apply_branch, hpay] at hb
      exact transfer_branch_conserves ctx s _ _ _ _ _ _ _ hsplit
        (by rw [hpay] at hdvd; exact hdvd) hscale hfound hb
  | Stake amount =>
      rw [hpay] at hb
      simp only [apply_branch, hpay] at hb
      exact stake_branch_conserves ctx s sender _ _ _ _ _ _ _ hsplit
        (by rw [hpay] at hdvd; exact hdvd) hscale hfound hb
  | Unstake amount =>
      rw [hpay] at hb
      simp only [apply_branch, hpay] at hb
      exact unstake_branch_conserves ctx s sender _ _ _ _ _ _ _ hsplit
        (by rw [hpay] at hdvd; exact hdvd) hscale hfound hb
  | Delegate validator amount =>
      rw [hpay] at hb
      simp only [apply_branch, hpay] at hb
      exact delegate_branch_conserves ctx s sender _ _ _ _ _ _ _ hsplit
        (by rw [hpay] at hdvd; exact hdvd) hscale hfound hb
  | Undelegate validator amount =>
      rw [hpay] at hb
      simp only [apply_branch, hpay] at hb
      rw [hpay] at hc
      simp only [conservative] at hc
      exact undelegate_branch_conserves ctx s sender _ _ _ _ _ _ _ _ hsplit
        (by rw [hpay] at hdvd; exact hdvd) hscale hfound hc hb
  | Slash validator penalty_bps =>
      rw [hpay] at hb
      simp only [apply_branch, hpay] at hb
      exact slash_branch_conserves ctx s _ _ _ _ _ _ _ hsplit
        (by rw [hpay] at hdvd; exact hdvd) hscale hfound hb
  | PrivacyDeposit commitment amount =>
      rw [hpay] at hb
      simp only [apply_branch, hpay] at hb
      exact privacy_deposit_branch_conserves ctx s _ _ _ _ _ _ _ hsplit
        (by rw [hpay] at hdvd; exact hdvd) hscale hfound hb
  | PrivacyWithdraw nullifier recipient amount merkle_root commitment proof =>
      rw [hpay] at hb
      simp only [apply_branch, hpay] at hb
      rw [hpay] at hc
      simp only [conservative] at hc
      exact privacy_withdraw_branch_conserves ctx s _ _ _ _ _ _ _ _ _ _ _
        hsplit (by rw [hpay] at hdvd; exact hdvd) hscale hfound
        (by rw [haddr]; exact hc) hb
  | RollupBridgeDeposit domain_id amount =>
      rw [hpay] at hb
      simp only [apply_branch, hpay] at hb
      exact bridge_deposit_branch_conserves ctx s _ _ _ _ _ _ hsplit
        (by rw [hpay] at hdvd; exact hdvd) hscale hfound hb
  | RollupBridgeWithdraw domain_id amount =>
      rw [hpay] at hc
      simp only [conservative] at hc

theorem apply_inflation_supply (ctx : Ctx) (s : ChainState) (block : Block)
    (mint : Nat) (s' : ChainState)
    (hok : apply_inflation_rewards ctx s block = (.ok mint, s'))
    (hbound : s.total_supply + mint ≤ U128_MAX) :
    s'.total_supply = s.total_supply + mint := by
  unfold apply_inflation_rewards at hok
  simp only [] at hok
  split at hok
  · simp only [Prod.mk.injEq] at hok
    obtain ⟨h1, rfl⟩ := hok
    simp at h1
    omega
  next hstk =>
  split at hok
  · simp only [Prod.mk.injEq] at hok
    obtain ⟨h1, rfl⟩ := hok
    simp at h1
    omega
  next hmint =>
  split at hok
  · exact absurd (congrArg (fun p => p.1) hok) (by simp)
  next store hcred =>
  simp only [Prod.mk.injEq] at hok
  obtain ⟨h1, rfl⟩ := hok
  simp at h1
  subst h1
  simp only []
  rw [sat_add, Nat.min_def]
  split <;> omega


/-! # Claim theorems -/

/-- C1 (counterexample): starting from a state whose conserved sum
equals `total_supply`, a successful `RollupBridgeWithdraw` of 50 leaves
the sum of balances, stakes, fee pools, pending unbonds and shielded
totals at 150 while `total_supply` stays 100 — the supply-conservation
invariant stated by the claim is false on the code. -/
theorem bridge_withdraw_breaks_conservation :
    conserved_sum bridge_state = bridge_state.total_supply ∧
    (apply_tx demo_ctx bridge_state 1 bridge_tx 0).1
      = .ok { gas_used := 50000, events := ["bridge_withdraw"] } ∧
    conserved_sum (apply_tx demo_ctx bridge_state 1 bridge_tx 0).2 = 150 ∧
    (apply_tx demo_ctx bridge_state 1 bridge_tx 0).2.total_supply = 100 ∧
    conserved_sum (apply_tx demo_ctx bridge_state 1 bridge_tx 0).2
      ≠ (apply_tx demo_ctx bridge_state 1 bridge_tx 0).2.total_supply := by
  refine ⟨by decide, by rfl, by decide, by decide, by decide⟩

/-- C1 (amended): (i) every successful `apply_tx` of a conservative
payload kind — Transfer, Stake, Unstake, Delegate, Undelegate (within
the validator's recorded stake), Slash, PrivacyDeposit, PrivacyWithdraw
(to a recipient other than the sender), RollupBridgeDeposit — preserves
the conserved sum Σbalances + Σstakes + Σfee_pools + Σpending_unbonds +
Σtotal_shielded, provided the two l1 fee percentages sum to 100 and the
sum is far from u128 saturation, and never changes `total_supply`;
(ii) `apply_tx` (any payload, any outcome) never changes
`total_supply`; (iii) `apply_inflation_rewards` increases
`total_supply` by exactly the minted amount it returns (absent u128
saturation).  `RollupBridgeWithdraw` is excluded: it violates the sum
invariant (see the counterexample). -/
theorem supply_conservation_amended :
    (∀ (ctx : Ctx) (s : ChainState) (sender : Address) (tx : Tx)
        (curh : Nat) (out : ExecutionOutcome) (s' : ChainState),
        apply_tx ctx s sender tx curh = (.ok out, s') →
        conservative s sender tx.payload →
        ctx.fee_split.l1_gas_burn_pct + ctx.fee_split.l1_gas_validators_pct = 100 →
        100 * conserved_sum s ≤ U128_MAX →
        conserved_sum s' = conserved_sum s ∧ s'.total_supply = s.total_supply)
    ∧ (∀ (ctx : Ctx) (s : ChainState) (sender : Address) (tx : Tx) (curh : Nat),
        (apply_tx ctx s sender tx curh).2.total_supply = s.total_supply)
    ∧ (∀ (ctx : Ctx) (s : ChainState) (block : Block) (mint : Nat)
        (s' : ChainState),
        apply_inflation_rewards ctx s block = (.ok mint, s') →
        s.total_supply + mint ≤ U128_MAX →
        s'.total_supply = s.total_supply + mint) := by
  refine ⟨?_, apply_tx_supply, apply_inflation_supply⟩
  intro ctx s sender tx curh out s' hok hc hsplit hscale
  refine ⟨apply_tx_conserves ctx s sender tx curh out s' hok hc hsplit hscale, ?_⟩
  have := apply_tx_supply ctx s sender tx curh
  rw [hok] at this
  exact this

/-- C1 (witness): the amended conservation theorem applied to the S1
transfer scenario. -/
theorem supply_conservation_amended_witness :
    conserved_sum (apply_tx demo_ctx S1_state 1 S1_tx 0).2
        = conserved_sum S1_state ∧
    (apply_tx demo_ctx S1_state 1 S1_tx 0).2.total_supply
        = S1_state.total_supply :=
  supply_conservation_amended.1 demo_ctx S1_state 1 S1_tx 0
    { gas_used := 21000, events := ["transfer"] }
    (apply_tx demo_ctx S1_state 1 S1_tx 0).2
    (by rfl) (by trivial) (by decide) (by decide)

/-- C5 (counterexample): in the S1 scenario the spec asserts a final
balance of 979,990 for A, but 1,000,000 − 10 − 21,000·1 = 978,990, and
the code indeed leaves A with 978,990. -/
theorem S1_balance_is_not_979990 :
    (getAccount (apply_tx demo_ctx S1_state 1 S1_tx 0).2.accounts 1).elim 0
        (fun a => a.balance_x) = 978990 ∧
    (getAccount (apply_tx demo_ctx S1_state 1 S1_tx 0).2.accounts 1).elim 0
        (fun a => a.balance_x) ≠ 979990 := by
  refine ⟨by decide, by decide⟩

/-- C5 (amended): the S1 transfer succeeds, burning gas 21,000 at
effective price 1; afterwards A has 978,990 (= 1,000,000 − 10 −
21,000·1) with nonce 1, B has 10, and the treasury receives
21,000 · l1_gas_burn_pct / 100 = 6,300 (the validators pool 14,700). -/
theorem S1_transfer_semantics :
    (apply_tx demo_ctx S1_state 1 S1_tx 0).1
      = .ok { gas_used := 21000, events := ["transfer"] } ∧
    (getAccount (apply_tx demo_ctx S1_state 1 S1_tx 0).2.accounts 1).elim 0
        (fun a => a.balance_x) = 978990 ∧
    (getAccount (apply_tx demo_ctx S1_state 1 S1_tx 0).2.accounts 1).elim 0
        (fun a => a.nonce) = 1 ∧
    (getAccount (apply_tx demo_ctx S1_state 1 S1_tx 0).2.accounts 2).elim 0
        (fun a => a.balance_x) = 10 ∧
    (apply_tx demo_ctx S1_state 1 S1_tx 0).2.fee_pools.treasury
      = 21000 * demo_split.l1_gas_burn_pct / 100 ∧
    (apply_tx demo_ctx S1_state 1 S1_tx 0).2.fee_pools.treasury
      = S1_state.fee_pools.treasury + 6300 := by
  refine ⟨by rfl, by decide, by decide, by decide, by decide, by decide⟩

/-- C2: the Stake branch does not derive the new validator's id from the
sender public key.  The same stake transaction (same `public_key`)
applied in two runs of the node — differing only in the value drawn by
`Uuid::new_v4()`, modelled by `fresh_validator_id` — produces validator
records with two different ids, so the id is not
`UUIDv5(NAMESPACE_OID, pubkey)` and is not stable across restarts.  The
record's `pubkey` field moreover stores `tx.signature`, not
`tx.public_key`.  (Only `from_genesis` uses `validator_id_from_pubkey`,
the UUIDv5 derivation the spec describes.) -/
theorem stake_assigns_fresh_v4_id :
    ((apply_tx demo_ctx S1_state 1 stake_tx 0).2.validators.map (fun v => v.id))
      = [demo_ctx.fresh_validator_id] ∧
    ((apply_tx demo_ctx' S1_state 1 stake_tx 0).2.validators.map (fun v => v.id))
      = [demo_ctx'.fresh_validator_id] ∧
    demo_ctx.fresh_validator_id ≠ demo_ctx'.fresh_validator_id ∧
    ((apply_tx demo_ctx S1_state 1 stake_tx 0).2.validators.map (fun v => v.pubkey))
      = [stake_tx.signature] ∧
    stake_tx.signature ≠ stake_tx.public_key := by
  refine ⟨by decide, by decide, by decide, by decide, by decide⟩

/-- C10: a PrivacyDeposit or PrivacyWithdraw whose amount is 0 is
rejected by `ensure_positive` (or by an earlier admission check) before
any state change: `apply_tx` returns an error and the returned store
state is exactly the input state. -/
theorem zero_amount_shielded_rejected :
    ∀ (ctx : Ctx) (s : ChainState) (sender : Address) (tx : Tx) (curh : Nat),
      ((∃ c, tx.payload = .PrivacyDeposit c 0) ∨
        (∃ n r mr c pf, tx.payload = .PrivacyWithdraw n r 0 mr c pf)) →
      ∃ e, apply_tx ctx s sender tx curh = (.error e, s) := by
  intro ctx s sender tx curh hp
  unfold apply_tx
  split
  · exact ⟨_, rfl⟩
  simp only []
  split
  · exact ⟨_, rfl⟩
  split
  · exact ⟨_, rfl⟩
  split
  · exact ⟨_, rfl⟩
  rcases hp with ⟨c, hp⟩ | ⟨n, r, mr, c, pf, hp⟩ <;>
    simp only [apply_branch, hp] <;>
    exact ⟨_, rfl⟩

/-- C10 (witness): the zero-amount deposit `zero_dep_tx` is rejected on
the S1 state with the state unchanged. -/
theorem zero_amount_shielded_rejected_witness :
    ∃ e, apply_tx demo_ctx S1_state 1 zero_dep_tx 0 = (.error e, S1_state) :=
  zero_amount_shielded_rejected demo_ctx S1_state 1 zero_dep_tx 0
    (Or.inl ⟨5, rfl⟩)

/-- C3: the quorum threshold is `⌊2·total_stake/3⌋ + 1` — 34 for stakes
{10, 15, 25} — and `vote` is exact on that bound: every ordering of
distinct-voter votes for (777, view 0) whose stakes sum to at least 34
pushes 777 onto the commit queue, every ordering summing to at most 33
leaves the queue empty, a repeated vote is a no-op on the whole engine,
and in general a vote whose voter is already in the tally for its
(block_id, view) is accepted without changing the engine. -/
theorem quorum_exactness :
    quorum_threshold demo_engine = 34
    ∧ ((vote_many sigT demo_engine [w1, w3]).commit_queue ≠ []
       ∧ (vote_many sigT demo_engine [w3, w1]).commit_queue ≠ []
       ∧ (vote_many sigT demo_engine [w2, w3]).commit_queue ≠ []
       ∧ (vote_many sigT demo_engine [w3, w2]).commit_queue ≠ []
       ∧ (vote_many sigT demo_engine [w1, w2, w3]).commit_queue ≠ []
       ∧ (vote_many sigT demo_engine [w1, w3, w2]).commit_queue ≠ []
       ∧ (vote_many sigT demo_engine [w2, w1, w3]).commit_queue ≠ []
       ∧ (vote_many sigT demo_engine [w2, w3, w1]).commit_queue ≠ []
       ∧ (vote_many sigT demo_engine [w3, w1, w2]).commit_queue ≠ []
       ∧ (vote_many sigT demo_engine [w3, w2, w1]).commit_queue ≠ [])
    ∧ ((vote_many sigT demo_engine []).commit_queue = []
       ∧ (vote_many sigT demo_engine [w1]).commit_queue = []
       ∧ (vote_many sigT demo_engine [w2]).commit_queue = []
       ∧ (vote_many sigT demo_engine [w3]).commit_queue = []
       ∧ (vote_many sigT demo_engine [w1, w2]).commit_queue = []
       ∧ (vote_many sigT demo_engine [w2, w1]).commit_queue = [])
    ∧ vote_many sigT demo_engine [w1, w1] = vote_many sigT demo_engine [w1]
    ∧ (∀ (sigOk : SignedVote → Bool) (inner : HotStuffInner) (v : SignedVote),
        verify_vote sigOk v inner.validators = .ok () →
        (((inner.votes.lookup (v.block_id, v.view)).getD
            VoteTally.default).voters.contains v.voter.id) = true →
        vote_step sigOk inner v = (.ok (), inner)) := by
  refine ⟨by decide, by decide, by decide, by decide, ?_⟩
  intro sigOk inner v hver hdup
  unfold vote_step
  rw [hver]
  simp only []
  rw [if_pos hdup]

/-- C3 witness: validator 1's repeated vote against the engine that has
already tallied it satisfies both hypotheses of the duplicate-vote
conjunct, and the engine is unchanged. -/
theorem quorum_exactness_witness :
    verify_vote sigT w1 demo_engine1.validators = .ok ()
    ∧ (((demo_engine1.votes.lookup (w1.block_id, w1.view)).getD
          VoteTally.default).voters.contains w1.voter.id) = true
    ∧ vote_step sigT demo_engine1 w1 = (.ok (), demo_engine1) :=
  ⟨rfl, by decide,
   quorum_exactness.2.2.2.2 sigT demo_engine1 w1 rfl (by decide)⟩

theorem unbond_drain_all_later (curh : Nat) (entries : List Unbonding)
    (store : List Account) (remaining : List Unbonding)
    (h : ∀ e ∈ entries, curh < e.release_height) :
    unbond_drain curh entries store remaining = .ok (store, remaining ++ entries) := by
  induction entries generalizing remaining with
  | nil => simp [unbond_drain]
  | cons e rest ih =>
      unfold unbond_drain
      rw [if_pos (h e (List.mem_cons_self e rest)),
        ih (remaining ++ [e]) (fun x hx => h x (List.mem_cons_of_mem e hx))]
      simp

/-- C6: (i) a successful `Unstake(amount)` applied at height `curh`
finds a validator owned by the sender with at least `amount` staked,
decrements its stake by `amount` (marking it Exited at zero), and
appends an `Unbonding` entry releasing at
`curh + unbonding_delay_blocks`; (ii) `process_unbondings` at a height
strictly below every pending entry's release height credits nothing and
leaves the state unchanged; (iii) on a queue holding a single matured
entry it credits exactly the unstaked amount to the owner's account and
removes the entry. -/
theorem unbonding_delay_honoured :
    (∀ (ctx : Ctx) (s : ChainState) (sender : Address) (tx : Tx)
       (curh amount : Nat) (out : ExecutionOutcome) (s' : ChainState),
       tx.payload = .Unstake amount →
       apply_tx ctx s sender tx curh = (.ok out, s') →
       ∃ v, findValidatorByOwner s.validators sender = some v
         ∧ amount ≤ v.stake
         ∧ s'.pending_unbonds = s.pending_unbonds ++
             [{ owner := sender, validator_id := some v.id, amount := amount,
                release_height := sat_add64 curh ctx.unbonding_delay_blocks }]
         ∧ s'.validators = replaceValidatorByOwner s.validators sender
             { v with stake := v.stake - amount,
                      status := if v.stake - amount == 0 then .Exited
                                else v.status })
    ∧ (∀ (s : ChainState) (curh : Nat),
        (∀ e ∈ s.pending_unbonds, curh < e.release_height) →
        process_unbondings s curh = (.ok (), s))
    ∧ (∀ (s : ChainState) (u : Unbonding) (a : Account) (curh : Nat),
        s.pending_unbonds = [u] →
        u.release_height ≤ curh →
        getAccount s.accounts u.owner = some a →
        a.balance_x + u.amount ≤ U128_MAX →
        process_unbondings s curh =
          (.ok (), { s with
                     accounts := putAccount s.accounts
                       { a with balance_x := a.balance_x + u.amount },
                     pending_unbonds := [] })) := by
  refine ⟨?_, ?_, ?_⟩
  · intro ctx s sender tx curh amount out s' hpay hok
    obtain ⟨gp, hgp, hle, hb⟩ := apply_tx_ok_inv hok
    rw [hpay] at hb
    simp only [apply_branch, hpay] at hb
    unfold unstake_branch at hb
    split at hb
    · exact absurd (congrArg (fun p => p.1) hb) (by simp)
    next hgas =>
    split at hb
    · exact absurd (congrArg (fun p => p.1) hb) (by simp)
    next v hfv' =>
    split at hb
    · exact absurd (congrArg (fun p => p.1) hb) (by simp)
    next hstk =>
    simp only [] at hb
    split at hb
    · exact absurd (congrArg (fun p => p.1) hb) (by simp)
    next nb hsub =>
    simp only [Prod.mk.injEq] at hb
    obtain ⟨-, rfl⟩ := hb
    exact ⟨v, hfv', by omega, rfl, rfl⟩
  · intro s curh hlater
    unfold process_unbondings
    split
    · rfl
    · rw [unbond_drain_all_later curh s.pending_unbonds s.accounts [] hlater]
      rfl
  · intro s u a curh hpend hrel hacc hbound
    have hca : checked_add a.balance_x u.amount = some (a.balance_x + u.amount) := by
      unfold checked_add
      exact if_pos hbound
    have hdrain : unbond_drain curh [u] s.accounts [] =
        .ok (putAccount s.accounts
              { a with balance_x := a.balance_x + u.amount }, []) := by
      unfold unbond_drain
      rw [if_neg (by omega)]
      simp only [hacc, Option.getD_some, hca]
      rfl
    unfold process_unbondings
    rw [hpend, if_neg (by simp), hdrain]

/-- C6 witness: applying `unstake_tx` (Unstake 200) to `us_state` at
height 5 satisfies the hypotheses of (i); `mature_state` at heights 4
and 15 satisfies the hypotheses of (ii) and (iii); the conclusions are
delivered at those inputs. -/
theorem unbonding_delay_honoured_witness :
    (∃ v, findValidatorByOwner us_state.validators 1 = some v
       ∧ 200 ≤ v.stake
       ∧ us_after.pending_unbonds = us_state.pending_unbonds ++
           [{ owner := 1, validator_id := some v.id, amount := 200,
              release_height := sat_add64 5 demo_ctx.unbonding_delay_blocks }]
       ∧ us_after.validators = replaceValidatorByOwner us_state.validators 1
           { v with stake := v.stake - 200,
                    status := if v.stake - 200 == 0 then .Exited
                              else v.status })
    ∧ process_unbondings mature_state 4 = (.ok (), mature_state)
    ∧ process_unbondings mature_state 15 =
        (.ok (), { mature_state with
                   accounts := putAccount mature_state.accounts
                     { unbond_acct with
                       balance_x := unbond_acct.balance_x + unbond_entry.amount },
                   pending_unbonds := [] }) :=
  ⟨unbonding_delay_honoured.1 demo_ctx us_state 1 unstake_tx 5 200
      ⟨50000, ["unstake_init"]⟩ us_after rfl rfl,
   unbonding_delay_honoured.2.1 mature_state 4 (by decide),
   unbonding_delay_honoured.2.2 mature_state unbond_entry unbond_acct 15
      rfl (by decide) rfl (by decide)⟩

theorem pw_success_marks {ctx : Ctx} {s : ChainState} {sa : Account}
    {gas_used gas_fee : Nat}
    {nullifier recipient amount merkle_root commitment : Nat}
    {proof : ProofArtifact} {out : ExecutionOutcome} {s' : ChainState}
    (hok : privacy_withdraw_branch ctx s sa gas_used gas_fee nullifier recipient
      amount merkle_root commitment proof = (.ok out, s')) :
    nullifier ∉ (get_privacy_pool s).nullifiers
    ∧ (get_privacy_pool s').nullifiers
        = (get_privacy_pool s).nullifiers ++ [nullifier] := by
  unfold privacy_withdraw_branch at hok
  split at hok
  · exact absurd (congrArg (fun p => p.1) hok) (by simp)
  next u0 hpos =>
  simp only [] at hok
  split at hok
  · exact absurd (congrArg (fun p => p.1) hok) (by simp)
  next hnul =>
  split at hok
  · exact absurd (congrArg (fun p => p.1) hok) (by simp)
  next hroot =>
  split at hok
  · exact absurd (congrArg (fun p => p.1) hok) (by simp)
  next hcomm =>
  split at hok
  · exact absurd (congrArg (fun p => p.1) hok) (by simp)
  next htot =>
  split at hok
  · exact absurd (congrArg (fun p => p.1) hok) (by simp)
  next hzk =>
  split at hok
  · exact absurd (congrArg (fun p => p.1) hok) (by simp)
  next tb hadd =>
  split at hok
  · exact absurd (congrArg (fun p => p.1) hok) (by simp)
  next nb hsub =>
  simp only [Prod.mk.injEq] at hok
  obtain ⟨-, rfl⟩ := hok
  constructor
  · simpa using hnul
  · simp only [get_privacy_pool, route_privacy_pools, set_pool_privacy_pools,
      lookup_putPool, Option.getD_some]

theorem pw_spent_rejected {ctx : Ctx} {s : ChainState} {sender : Address}
    {tx : Tx} {curh : Nat}
    {nullifier recipient amount merkle_root commitment : Nat}
    {proof : ProofArtifact} {gp : Nat}
    (hpay : tx.payload = .PrivacyWithdraw nullifier recipient amount merkle_root
      commitment proof)
    (hchain : tx.chain_id = ctx.chain_id)
    (hnonce : ((getAccount s.accounts sender).getD (default_account sender)).nonce
      = tx.nonce)
    (hgp : effective_gas_price tx ctx.base_fee = .ok gp)
    (hfee : gas_cost tx.payload * gp ≤ U128_MAX)
    (hamt : amount ≠ 0)
    (hsp : nullifier ∈ (get_privacy_pool s).nullifiers) :
    apply_tx ctx s sender tx curh = (.error "nullifier already spent", s) := by
  have hcm : checked_mul (gas_cost tx.payload) gp
      = some (gas_cost tx.payload * gp) := by
    unfold checked_mul
    exact if_pos hfee
  have hepos : ensure_positive amount = .ok () := by
    unfold ensure_positive
    rw [if_neg (by simp [hamt])]
  unfold apply_tx
  rw [if_neg (by simp [hchain])]
  simp only []
  rw [if_neg (by simp [hnonce]), hgp]
  simp only []
  rw [hcm]
  simp only [apply_branch, hpay]
  unfold privacy_withdraw_branch
  rw [hepos]
  simp only []
  rw [if_pos (by simpa using hsp)]

/-- C7: spending a nullifier is exclusive.  (i) A successful
`PrivacyWithdraw` implies its nullifier was not yet in the pool, records
it, and preserves the no-duplicate property of the pool's nullifier
set; (ii) once a nullifier is in the pool, every admissible
`PrivacyWithdraw` reusing it fails with "nullifier already spent" and
leaves the state untouched; (iii) hence of two withdrawals sharing a
nullifier, if the first succeeds the second fails with that error. -/
theorem double_spend_immunity :
    (∀ (ctx : Ctx) (s : ChainState) (sender : Address) (tx : Tx) (curh : Nat)
       (nullifier recipient amount merkle_root commitment : Nat)
       (proof : ProofArtifact) (out : ExecutionOutcome) (s' : ChainState),
       tx.payload = .PrivacyWithdraw nullifier recipient amount merkle_root
         commitment proof →
       apply_tx ctx s sender tx curh = (.ok out, s') →
       nullifier ∉ (get_privacy_pool s).nullifiers
       ∧ (get_privacy_pool s').nullifiers
           = (get_privacy_pool s).nullifiers ++ [nullifier]
       ∧ ((get_privacy_pool s).nullifiers.Nodup →
            (get_privacy_pool s').nullifiers.Nodup))
    ∧ (∀ (ctx : Ctx) (s : ChainState) (sender : Address) (tx : Tx) (curh : Nat)
         (nullifier recipient amount merkle_root commitment : Nat)
         (proof : ProofArtifact) (gp : Nat),
         tx.payload = .PrivacyWithdraw nullifier recipient amount merkle_root
           commitment proof →
         tx.chain_id = ctx.chain_id →
         ((getAccount s.accounts sender).getD (default_account sender)).nonce
           = tx.nonce →
         effective_gas_price tx ctx.base_fee = .ok gp →
         gas_cost tx.payload * gp ≤ U128_MAX →
         amount ≠ 0 →
         nullifier ∈ (get_privacy_pool s).nullifiers →
         apply_tx ctx s sender tx curh = (.error "nullifier already spent", s))
    ∧ (∀ (ctx : Ctx) (s s' : ChainState) (sender1 sender2 : Address)
         (tx1 tx2 : Tx) (curh1 curh2 : Nat)
         (nullifier r1 a1 m1 c1 : Nat) (p1 : ProofArtifact)
         (r2 a2 m2 c2 : Nat) (p2 : ProofArtifact) (gp2 : Nat)
         (out : ExecutionOutcome),
         tx1.payload = .PrivacyWithdraw nullifier r1 a1 m1 c1 p1 →
         tx2.payload = .PrivacyWithdraw nullifier r2 a2 m2 c2 p2 →
         apply_tx ctx s sender1 tx1 curh1 = (.ok out, s') →
         tx2.chain_id = ctx.chain_id →
         ((getAccount s'.accounts sender2).getD (default_account sender2)).nonce
           = tx2.nonce →
         effective_gas_price tx2 ctx.base_fee = .ok gp2 →
         gas_cost tx2.payload * gp2 ≤ U128_MAX →
         a2 ≠ 0 →
         apply_tx ctx s' sender2 tx2 curh2
           = (.error "nullifier already spent", s')) := by
  refine ⟨?_, ?_, ?_⟩
  · intro ctx s sender tx curh nullifier recipient amount merkle_root commitment
      proof out s' hpay hok
    obtain ⟨gp, hgp, hle, hb⟩ := apply_tx_ok_inv hok
    rw [hpay] at hb
    simp only [apply_branch, hpay] at hb
    obtain ⟨hnot, happ⟩ := pw_success_marks hb
    refine ⟨hnot, happ, ?_⟩
    intro hnd
    rw [happ, List.nodup_append]
    exact ⟨hnd, List.nodup_singleton _,
      fun a ha hb2 => hnot (by rw [List.mem_singleton] at hb2; rw [← hb2]; exact ha)⟩
  · intro ctx s sender tx curh nullifier recipient amount merkle_root commitment
      proof gp hpay hchain hnonce hgp hfee hamt hsp
    exact pw_spent_rejected hpay hchain hnonce hgp hfee hamt hsp
  · intro ctx s s' sender1 sender2 tx1 tx2 curh1 curh2 nullifier r1 a1 m1 c1 p1
      r2 a2 m2 c2 p2 gp2 out h1pay h2pay h1ok hchain hnonce hgp hfee hamt
    obtain ⟨gp1, hgp1, hle1, hb1⟩ := apply_tx_ok_inv h1ok
    rw [h1pay] at hb1
    simp only [apply_branch, h1pay] at hb1
    obtain ⟨-, happ⟩ := pw_success_marks hb1
    exact pw_spent_rejected h2pay hchain hnonce hgp hfee hamt
      (by rw [happ]; simp)

/-- C7 witness: `pw_tx1` (nullifier 77) applied to `pw_state` satisfies
the hypotheses of (i); the reuse of nullifier 77 by `pw_tx2` against the
post-state satisfies the hypotheses of (iii) and is rejected with the
state unchanged. -/
theorem double_spend_immunity_witness :
    (77 ∉ (get_privacy_pool pw_state).nullifiers
     ∧ (get_privacy_pool pw_after).nullifiers
         = (get_privacy_pool pw_state).nullifiers ++ [77]
     ∧ ((get_privacy_pool pw_state).nullifiers.Nodup →
          (get_privacy_pool pw_after).nullifiers.Nodup))
    ∧ apply_tx demo_ctx pw_after 4 pw_tx2 1
        = (.error "nullifier already spent", pw_after) :=
  ⟨double_spend_immunity.1 demo_ctx pw_state 1 pw_tx1 0 77 2 40 0 55 0
      ⟨120000, ["privacy_withdraw"]⟩ pw_after rfl rfl,
   double_spend_immunity.2.2 demo_ctx pw_state pw_after 1 4 pw_tx1 pw_tx2 0 1
      77 2 40 0 55 0 3 30 0 55 0 0 ⟨120000, ["privacy_withdraw"]⟩
      rfl rfl rfl rfl rfl rfl (by decide) (by decide)⟩

/-- C9 counterexample: `c9_block`'s second transaction fails, so
`apply_block` errors — yet the returned state differs from the input
state and address 2 keeps the 10 units credited by the first
transaction.  Block application is not atomic. -/
theorem apply_block_partial_application :
    apply_block demo_ctx c9_addr c9_state c9_block
      = (.error "insufficient funds", c9_after)
    ∧ c9_after ≠ c9_state
    ∧ getAccount c9_after.accounts 2
        = some { address := 2, nonce := 0, balance_x := 10,
                 code_hash := none, storage_root := none } :=
  ⟨rfl, by decide, by decide⟩

/-- C9 amended: `apply_block` aborts on the first failing transaction
but performs no rollback — the error surfaces together with the state
produced by the transactions already applied; on success the sealed
state root is the commitment to the returned (fully applied) state. -/
theorem apply_block_no_rollback :
    (∀ (ctx : Ctx) (f : List Nat → Address) (s : ChainState) (block : Block)
       (e : String) (s' : ChainState),
       block_tx_loop ctx f block.header.height block.transactions s 0 []
         = (.error e, s') →
       apply_block ctx f s block = (.error e, s'))
    ∧ (∀ (ctx : Ctx) (f : List Nat → Address) (s : ChainState) (block : Block)
         (res : BlockApplyResult) (s' : ChainState),
         apply_block ctx f s block = (.ok res, s') →
         res.state_root = ctx.commit_root s') := by
  constructor
  · intro ctx f s block e s' hloop
    unfold apply_block
    rw [hloop]
  · intro ctx f s block res s' hok
    unfold apply_block at hok
    split at hok
    · exact absurd (congrArg (fun p => p.1) hok) (by simp)
    next s1 gas events hloop =>
    split at hok
    · exact absurd (congrArg (fun p => p.1) hok) (by simp)
    next s2 hpu =>
    split at hok
    · exact absurd (congrArg (fun p => p.1) hok) (by simp)
    next mint s3 hir =>
    simp only [] at hok
    simp only [Prod.mk.injEq, Except.ok.injEq] at hok
    obtain ⟨hres, rfl⟩ := hok
    rw [← hres]

/-- C9 witness: the failing `c9_block` satisfies the error-propagation
hypothesis and surfaces the partially applied state; the valid
`c9_ok_block` satisfies the success hypothesis and its sealed root is
the commitment to the final state. -/
theorem apply_block_no_rollback_witness :
    block_tx_loop demo_ctx c9_addr c9_block.header.height c9_block.transactions
        c9_state 0 [] = (.error "insufficient funds", c9_after)
    ∧ apply_block demo_ctx c9_addr c9_state c9_block
        = (.error "insufficient funds", c9_after)
    ∧ apply_block demo_ctx c9_addr c9_state c9_ok_block
        = (.ok c9_ok_res, c9_ok_after)
    ∧ c9_ok_res.state_root = demo_ctx.commit_root c9_ok_after :=
  ⟨rfl,
   apply_block_no_rollback.1 demo_ctx c9_addr c9_state c9_block
     "insufficient funds" c9_after rfl,
   rfl,
   apply_block_no_rollback.2 demo_ctx c9_addr c9_state c9_ok_block
     c9_ok_res c9_ok_after rfl⟩

/-- C8: `fold_hashes` sorts before streaming, so it is invariant under
any permutation of its leaf list; consequently two chain states whose
keyed containers hold the same entries in any iteration orders produce
identical state roots; and the empty leaf collection folds to the zero
hash. -/
theorem state_root_order_independent :
    (∀ (stream : List Hash → Hash) (l1 l2 : List Hash), l1.Perm l2 →
        fold_hashes stream l1 = fold_hashes stream l2)
    ∧ (∀ (hs : LeafHashers) (s t : ChainState),
        s.accounts.Perm t.accounts →
        s.validators.Perm t.validators →
        s.delegations.Perm t.delegations →
        s.fee_pools = t.fee_pools →
        s.privacy_pools.Perm t.privacy_pools →
        s.total_supply = t.total_supply →
        s.last_reward_height = t.last_reward_height →
        s.pending_unbonds.Perm t.pending_unbonds →
        state_root hs s = state_root hs t)
    ∧ (∀ stream : List Hash → Hash, fold_hashes stream [] = 0) := by
  have hfold : ∀ (stream : List Hash → Hash) (l1 l2 : List Hash), l1.Perm l2 →
      fold_hashes stream l1 = fold_hashes stream l2 := by
    intro stream l1 l2 hp
    unfold fold_hashes
    rcases eq_or_ne l1 [] with rfl | h1
    · rw [hp.symm.eq_nil]
    · have h2 : l2 ≠ [] := fun he => h1 ((he ▸ hp).eq_nil)
      rw [if_neg h1, if_neg h2]
      congr 1
      exact List.eq_of_perm_of_sorted
        ((List.perm_insertionSort _ l1).trans
          (hp.trans (List.perm_insertionSort _ l2).symm))
        (List.sorted_insertionSort _ l1)
        (List.sorted_insertionSort _ l2)
  refine ⟨hfold, ?_, fun stream => rfl⟩
  intro hs s t ha hv hd hf hp hsup hh hu
  unfold state_root
  apply hfold
  unfold state_leaves
  rw [hf, hsup, hh]
  exact ((((((ha.map hs.account).append (hv.map hs.validator)).append
    (hd.map hs.delegation)).append (List.Perm.refl _)).append
    (hp.map (fun kv => hs.pool kv.2))).append (List.Perm.refl _)).append
    (hu.map hs.unbond)

/-- C8 witness: the permuted leaf lists [3, 1] / [1, 3], the reordered
states `s8a` / `s8b`, and the empty collection instantiate the three
conjuncts. -/
theorem state_root_order_independent_witness :
    fold_hashes rootH.stream [3, 1] = fold_hashes rootH.stream [1, 3]
    ∧ state_root rootH s8a = state_root rootH s8b
    ∧ fold_hashes rootH.stream [] = 0 :=
  ⟨state_root_order_independent.1 rootH.stream [3, 1] [1, 3] (by decide),
   state_root_order_independent.2.1 rootH s8a s8b (by decide) (by decide)
     (by decide) rfl (by decide) rfl rfl (by decide),
   state_root_order_independent.2.2 rootH.stream⟩

theorem merkle_level_getD (H2 : Hash → Hash → Hash) (l : List Hash) :
    ∀ (idx : Nat), idx < l.length →
    (merkle_level H2 l).getD (idx / 2) 0 =
      if idx % 2 == 0 then
        (if idx + 1 < l.length then H2 (l.getD idx 0) (l.getD (idx + 1) 0)
         else H2 (l.getD idx 0) (l.getD idx 0))
      else H2 (l.getD (idx - 1) 0) (l.getD idx 0) := by
  induction l using merkle_level.induct H2 with
  | case1 =>
      intro idx h
      simp at h
  | case2 a =>
      intro idx h
      have h0 : idx = 0 := by simp at h; omega
      subst h0
      simp [merkle_level]
  | case3 a b rest ih =>
      intro idx h
      match idx with
      | 0 => simp [merkle_level]
      | 1 => simp [merkle_level]
      | n + 2 =>
          have hn : n < rest.length := by simp at h; omega
          have hdiv : (n + 2) / 2 = n / 2 + 1 := by omega
          have hmod : (n + 2) % 2 = n % 2 := by omega
          rw [show merkle_level H2 (a :: b :: rest) = H2 a b :: merkle_level H2 rest
            from rfl]
          rw [hdiv, List.getD_cons_succ, ih n hn, hmod]
          by_cases hp : n % 2 == 0
          · rw [if_pos hp, if_pos hp]
            by_cases hb : n + 1 < rest.length
            · rw [if_pos hb, if_pos (show n + 2 + 1 < (a :: b :: rest).length by
                simp; omega)]
              simp [List.getD_cons_succ]
            · rw [if_neg hb, if_neg (show ¬ (n + 2 + 1 < (a :: b :: rest).length) by
                simp; omega)]
              simp [List.getD_cons_succ]
          · rw [if_neg hp, if_neg hp]
            have hodd : n % 2 ≠ 0 := by simpa using hp
            obtain ⟨m, rfl⟩ : ∃ m, n = m + 1 := ⟨n - 1, by omega⟩
            simp [List.getD_cons_succ]

theorem path_root_climb (H2 : Hash → Hash → Hash) (level : List Hash) (idx : Nat) :
    idx < level.length →
    path_root H2 (level.getD idx 0) (merkle_path_from H2 level idx) idx
      = merkle_climb H2 level := by
  induction level, idx using merkle_path_from.induct H2 with
  | case1 idx =>
      intro h
      simp at h
  | case2 idx a =>
      intro h
      have h0 : idx = 0 := by simp at h; omega
      subst h0
      simp [merkle_path_from, path_root, merkle_climb]
  | case3 idx a b rest l ih =>
      intro h
      have hlt : idx / 2 < (merkle_level H2 (a :: b :: rest)).length := by
        rw [merkle_level_length]
        simp at h ⊢
        omega
      have hpair := merkle_level_getD H2 (a :: b :: rest) idx h
      simp only [merkle_path_from, path_root]
      conv_rhs => rw [merkle_climb]
      rw [← ih hlt]
      congr 1
      rw [hpair]
      by_cases hp : idx % 2 == 0
      · simp [hp]
        split <;> rfl
      · have hs : idx - 1 < rest.length + 1 + 1 := by simp at h; omega
        simp [hp, hs]

theorem nat_pair_inj : PairInjective Nat.pair := by
  intro a b c d h
  exact Nat.pair_eq_pair.mp h

theorem merkle_path_from_length_pos (H2 : Hash → Hash → Hash) (a b : Hash)
    (rest : List Hash) (idx : Nat) :
    0 < (merkle_path_from H2 (a :: b :: rest) idx).length := by
  simp only [merkle_path_from]
  simp

theorem path_root_leaf_inj {H2 : Hash → Hash → Hash} (hinj : PairInjective H2) :
    ∀ (path : List Hash) (idx : Nat) (x y : Hash), x ≠ y →
    path_root H2 x path idx ≠ path_root H2 y path idx := by
  intro path
  induction path with
  | nil =>
      intro idx x y hxy
      simpa [path_root] using hxy
  | cons s rest ih =>
      intro idx x y hxy
      simp only [path_root]
      by_cases hp : (idx % 2 == 0) = true
      · rw [if_pos hp, if_pos hp]
        exact ih (idx / 2) _ _ (fun he => hxy (hinj _ _ _ _ he).1)
      · rw [if_neg hp, if_neg hp]
        exact ih (idx / 2) _ _ (fun he => hxy (hinj _ _ _ _ he).2)

theorem path_root_set_ne {H2 : Hash → Hash → Hash} (hinj : PairInjective H2) :
    ∀ (path : List Hash) (i idx : Nat) (leaf sib' : Hash),
    i < path.length → sib' ≠ path.getD i 0 →
    path_root H2 leaf (path.set i sib') idx ≠ path_root H2 leaf path idx := by
  intro path
  induction path with
  | nil =>
      intro i idx leaf sib' hi
      simp at hi
  | cons s rest ih =>
      intro i idx leaf sib' hi hne
      match i with
      | 0 =>
          rw [List.getD_cons_zero] at hne
          rw [List.set_cons_zero]
          simp only [path_root]
          by_cases hp : (idx % 2 == 0) = true
          · rw [if_pos hp, if_pos hp]
            exact path_root_leaf_inj hinj rest (idx / 2) _ _
              (fun he => hne (hinj _ _ _ _ he).2)
          · rw [if_neg hp, if_neg hp]
            exact path_root_leaf_inj hinj rest (idx / 2) _ _
              (fun he => hne (hinj _ _ _ _ he).1)
      | j + 1 =>
          rw [List.getD_cons_succ] at hne
          rw [List.set_cons_succ]
          simp only [path_root]
          exact ih j (idx / 2) _ sib' (by simpa using hi) hne

theorem verify_complete_core (hashShard : List Nat → Hash)
    (H2 : Hash → Hash → Hash) (shards : List (List Nat)) (idxs : List Nat)
    (blob_id : String) (commitment : DACommitment)
    (hroot : commitment.root = da_merkle_root H2 (shards.map hashShard))
    (hbound : ∀ i ∈ idxs, i < shards.length) :
    verify_da_proof H2
      (prove_blob_availability hashShard H2 blob_id shards commitment idxs)
      = true := by
  unfold verify_da_proof prove_blob_availability derive_sample_proofs
  rw [List.all_eq_true]
  intro x hx
  rw [List.mem_map] at hx
  obtain ⟨idx, hidx, rfl⟩ := hx
  have hb := hbound idx hidx
  have hlen : idx < (shards.map hashShard).length := by simpa using hb
  have hleaf : hashShard (shards.getD idx []) = (shards.map hashShard).getD idx 0 := by
    rw [List.getD_eq_getElem _ _ hb, List.getD_eq_getElem _ _ hlen]
    simp
  simp only [verify_merkle_path, merkle_proof]
  rw [hleaf, path_root_climb H2 (shards.map hashShard) idx hlen, hroot]
  unfold da_merkle_root
  rw [if_neg (fun he => by rw [he] at hlen; simp at hlen)]
  simp

theorem verify_altered_root (H2 : Hash → Hash → Hash) (blob_id : String)
    (comm : DACommitment) (samples : List SampleProof) (root' : Hash)
    (hok : verify_da_proof H2 ⟨blob_id, comm, samples⟩ = true)
    (hs : samples ≠ [])
    (hne : root' ≠ comm.root) :
    verify_da_proof H2 ⟨blob_id, { comm with root := root' }, samples⟩
      = false := by
  unfold verify_da_proof at hok ⊢
  rcases samples with _ | ⟨s, rest⟩
  · exact absurd rfl hs
  · simp only [List.all_cons, Bool.and_eq_true] at hok
    obtain ⟨h1, -⟩ := hok
    simp only [verify_merkle_path] at h1
    have hpr : path_root H2 s.shard_hash s.merkle_path s.shard_index
        = comm.root := by simpa using h1
    simp only [List.all_cons, verify_merkle_path]
    simp [hpr, hne]
    intro he
    exact absurd he.symm hne

theorem verify_altered_shard_hash (H2 : Hash → Hash → Hash)
    (hinj : PairInjective H2) (blob_id : String) (comm : DACommitment)
    (pre post : List SampleProof) (s : SampleProof) (leaf' : Hash)
    (hok : verify_da_proof H2 ⟨blob_id, comm, pre ++ s :: post⟩ = true)
    (hne : leaf' ≠ s.shard_hash) :
    verify_da_proof H2
      ⟨blob_id, comm, pre ++ { s with shard_hash := leaf' } :: post⟩
      = false := by
  unfold verify_da_proof at hok ⊢
  simp only [List.all_append, List.all_cons, Bool.and_eq_true] at hok
  obtain ⟨-, h1, -⟩ := hok
  simp only [verify_merkle_path] at h1
  have hpr : path_root H2 s.shard_hash s.merkle_path s.shard_index
      = comm.root := by simpa using h1
  have hnew : path_root H2 leaf' s.merkle_path s.shard_index ≠ comm.root := by
    rw [← hpr]
    exact path_root_leaf_inj hinj s.merkle_path s.shard_index leaf' s.shard_hash hne
  simp only [List.all_append, List.all_cons, verify_merkle_path]
  simp [hnew]

theorem verify_altered_sibling (H2 : Hash → Hash → Hash)
    (hinj : PairInjective H2) (blob_id : String) (comm : DACommitment)
    (pre post : List SampleProof) (s : SampleProof) (i : Nat) (sib' : Hash)
    (hok : verify_da_proof H2 ⟨blob_id, comm, pre ++ s :: post⟩ = true)
    (hi : i < s.merkle_path.length)
    (hne : sib' ≠ s.merkle_path.getD i 0) :
    verify_da_proof H2
      ⟨blob_id, comm,
       pre ++ { s with merkle_path := s.merkle_path.set i sib' } :: post⟩
      = false := by
  unfold verify_da_proof at hok ⊢
  simp only [List.all_append, List.all_cons, Bool.and_eq_true] at hok
  obtain ⟨-, h1, -⟩ := hok
  simp only [verify_merkle_path] at h1
  have hpr : path_root H2 s.shard_hash s.merkle_path s.shard_index
      = comm.root := by simpa using h1
  have hnew : path_root H2 s.shard_hash (s.merkle_path.set i sib') s.shard_index
      ≠ comm.root := by
    rw [← hpr]
    exact path_root_set_ne hinj s.merkle_path i s.shard_index s.shard_hash sib' hi hne
  simp only [List.all_append, List.all_cons, verify_merkle_path]
  simp [hnew]

/-- C4: (i) every sampling proof produced for a blob sharded and
committed by `shard_blob` verifies, provided the sampled indices are in
bounds (`gen_range(0..shards.len())` keeps them so); and, with a
collision-free two-node combiner, every tampering is detected: (ii) an
altered commitment root, (iii) an altered sibling hash inside any
sample's merkle path, and (iv) an altered shard hash each flip
`verify_da_proof` to false. -/
theorem da_proof_soundness :
    (∀ (hashShard : List Nat → Hash) (H2 : Hash → Hash → Hash)
       (cfg : DAConfig) (blob : List Nat) (blob_id : String) (idxs : List Nat),
       (∀ i ∈ idxs, i < ((shard_blob hashShard H2 cfg blob).1).length) →
       verify_da_proof H2
         (prove_blob_availability hashShard H2 blob_id
           (shard_blob hashShard H2 cfg blob).1
           (shard_blob hashShard H2 cfg blob).2 idxs) = true)
    ∧ (∀ (H2 : Hash → Hash → Hash) (blob_id : String) (comm : DACommitment)
         (samples : List SampleProof) (root' : Hash),
         verify_da_proof H2 ⟨blob_id, comm, samples⟩ = true →
         samples ≠ [] →
         root' ≠ comm.root →
         verify_da_proof H2 ⟨blob_id, { comm with root := root' }, samples⟩
           = false)
    ∧ (∀ (H2 : Hash → Hash → Hash), PairInjective H2 →
         ∀ (blob_id : String) (comm : DACommitment)
           (pre post : List SampleProof) (s : SampleProof) (i : Nat)
           (sib' : Hash),
         verify_da_proof H2 ⟨blob_id, comm, pre ++ s :: post⟩ = true →
         i < s.merkle_path.length →
         sib' ≠ s.merkle_path.getD i 0 →
         verify_da_proof H2
           ⟨blob_id, comm,
            pre ++ { s with merkle_path := s.merkle_path.set i sib' } :: post⟩
           = false)
    ∧ (∀ (H2 : Hash → Hash → Hash), PairInjective H2 →
         ∀ (blob_id : String) (comm : DACommitment)
           (pre post : List SampleProof) (s : SampleProof) (leaf' : Hash),
         verify_da_proof H2 ⟨blob_id, comm, pre ++ s :: post⟩ = true →
         leaf' ≠ s.shard_hash →
         verify_da_proof H2
           ⟨blob_id, comm, pre ++ { s with shard_hash := leaf' } :: post⟩
           = false) :=
  ⟨fun hashShard H2 cfg blob blob_id idxs hbound =>
     verify_complete_core hashShard H2 (shard_blob hashShard H2 cfg blob).1 idxs
       blob_id (shard_blob hashShard H2 cfg blob).2 rfl hbound,
   fun H2 blob_id comm samples root' hok hs hne =>
     verify_altered_root H2 blob_id comm samples root' hok hs hne,
   fun H2 hinj blob_id comm pre post s i sib' hok hi hne =>
     verify_altered_sibling H2 hinj blob_id comm pre post s i sib' hok hi hne,
   fun H2 hinj blob_id comm pre post s leaf' hok hne =>
     verify_altered_shard_hash H2 hinj blob_id comm pre post s leaf' hok hne⟩

/-- C4 witness: the fixture blob, its three-index sampling, and the
three tamperings (root + 1, first sibling + 1 of the first sample, shard
hash + 1 of the first sample) instantiate the four conjuncts, with the
injective `Nat.pair` as combiner. -/
theorem da_proof_soundness_witness :
    verify_da_proof Nat.pair da_dp = true
    ∧ verify_da_proof Nat.pair
        ⟨"blob-1", { da_comm with root := da_comm.root + 1 }, da_dp.samples⟩
        = false
    ∧ verify_da_proof Nat.pair
        ⟨"blob-1", da_comm,
         [] ++ { da_s0 with
                 merkle_path := da_s0.merkle_path.set 0
                   (da_s0.merkle_path.getD 0 0 + 1) } :: da_rest⟩
        = false
    ∧ verify_da_proof Nat.pair
        ⟨"blob-1", da_comm,
         [] ++ { da_s0 with shard_hash := da_s0.shard_hash + 1 } :: da_rest⟩
        = false :=
  ⟨da_proof_soundness.1 daH Nat.pair da_cfg da_blob "blob-1" [0, 2, 1]
     (by decide),
   da_proof_soundness.2.1 Nat.pair "blob-1" da_comm da_dp.samples
     (da_comm.root + 1)
     (da_proof_soundness.1 daH Nat.pair da_cfg da_blob "blob-1" [0, 2, 1]
       (by decide))
     (by decide) (Nat.succ_ne_self da_comm.root),
   da_proof_soundness.2.2.1 Nat.pair nat_pair_inj "blob-1" da_comm []
     da_rest da_s0 0 (da_s0.merkle_path.getD 0 0 + 1)
     (da_proof_soundness.1 daH Nat.pair da_cfg da_blob "blob-1" [0, 2, 1]
       (by decide))
     (merkle_path_from_length_pos Nat.pair 6760 6820 [6791] 0)
     (Nat.succ_ne_self (da_s0.merkle_path.getD 0 0)),
   da_proof_soundness.2.2.2 Nat.pair nat_pair_inj "blob-1" da_comm []
     da_rest da_s0 (da_s0.shard_hash + 1)
     (da_proof_soundness.1 daH Nat.pair da_cfg da_blob "blob-1" [0, 2, 1]
       (by decide))
     (Nat.succ_ne_self da_s0.shard_hash)⟩

end Kova
